import Mathlib

/-!
Verification development for the oneseismic request-planning core
(`src/core/src/plan.cpp`).

The planning pipeline is embedded shallowly:

* the geometry layer (`gvt< 3 >` from `oneseismic/geometry.hpp`, which is
  not part of this tree) is modelled from the specification, section 4.1;
* the message/query types (`oneseismic/messages.hpp`, also external) are
  modelled from the specification, section 3;
* the planners, header builders, partitioner and driver are translated
  directly from `plan.cpp`.

Machine integers are modelled as `Nat` (all quantities involved are sizes,
indices and counts; the source stores them in `int` / `std::size_t`), and
line numbers as `Int` (`std::vector< int >`).  C++ exceptions are modelled
by `Except PlanError`.
-/

/-- A fragment ID: a triple of non-negative integers identifying a fragment
on the fragment grid. -/
abbrev Fid := Nat × Nat × Nat

/-- The x-y part of a fragment ID (used as the bin key by the curtain
planner). -/
abbrev Key := Nat × Nat

/-- Lexicographic strict comparison of fragment IDs.  This is
`std::lexicographical_compare` on the two 3-element id sequences, as used
by the curtain planner's `less`. -/
def fidLt (a b : Fid) : Bool :=
  a.1 < b.1 || (a.1 == b.1 && (a.2.1 < b.2.1 || (a.2.1 == b.2.1 && a.2.2 < b.2.2)))

/-- Lexicographic strict comparison of bin keys (x-y fragment positions). -/
def keyLt (a b : Key) : Bool :=
  a.1 < b.1 || (a.1 == b.1 && a.2 < b.2)

/-- Modelled from the spec (section 3): an attribute descriptor of the
manifest, with its `type` name, its own line-number arrays and its own
fragment shape (`manifest.attr[*]` in the JSON document). -/
structure AttrDesc where
  type : String
  ln0 : List Int
  ln1 : List Int
  ln2 : List Int
  frag : Nat × Nat × Nat
deriving DecidableEq, Repr

/-- Modelled from the spec (section 3): the manifest of a survey — three
axes with labels and line numbers, a fragment shape and the attribute
descriptors.  The `format-version` field may be absent from the JSON
object, hence `Option`. -/
structure Manifest where
  format_version : Option Int
  line_labels : List String
  ln0 : List Int
  ln1 : List Int
  ln2 : List Int
  frag : Nat × Nat × Nat
  attr : List AttrDesc
deriving DecidableEq, Repr

/-- Axis-indexed access to the manifest line numbers (`line_numbers[i]`). -/
def Manifest.ln (m : Manifest) (d : Nat) : List Int :=
  if d = 0 then m.ln0 else if d = 1 then m.ln1 else m.ln2

/-- Modelled from the spec (section 4.1): the geometry, parameterized by
cube shape and fragment shape (`gvt< 3 >` of `geometry.hpp`). -/
structure Gvt where
  cube : Nat × Nat × Nat
  frag : Nat × Nat × Nat
deriving DecidableEq, Repr

/-- Component of the cube shape along axis `d`. -/
def Gvt.cubeAt (g : Gvt) (d : Nat) : Nat :=
  if d = 0 then g.cube.1 else if d = 1 then g.cube.2.1 else g.cube.2.2

/-- Component of the fragment shape along axis `d`. -/
def Gvt.fragAt (g : Gvt) (d : Nat) : Nat :=
  if d = 0 then g.frag.1 else if d = 1 then g.frag.2.1 else g.frag.2.2

/-- Modelled from the spec (section 4.1): `fragment_count(d) = ceil(C_d / F_d)`. -/
def Gvt.fragment_count (g : Gvt) (d : Nat) : Nat :=
  (g.cubeAt d + (g.fragAt d - 1)) / g.fragAt d

/-- Modelled from the spec (section 4.1):
`frag_id(p) = (p0 / F0, p1 / F1, p2 / F2)` (integer division). -/
def Gvt.frag_id (g : Gvt) (p : Nat × Nat × Nat) : Fid :=
  (p.1 / g.frag.1, p.2.1 / g.frag.2.1, p.2.2 / g.frag.2.2)

/-- Modelled from the spec (section 4.1):
`to_local(p) = (p0 mod F0, p1 mod F1, p2 mod F2)`. -/
def Gvt.to_local (g : Gvt) (p : Nat × Nat × Nat) : Nat × Nat × Nat :=
  (p.1 % g.frag.1, p.2.1 % g.frag.2.1, p.2.2 % g.frag.2.2)

/-- Modelled from the spec (sections 4.1 and 4.3):
`fragment_shape().index(d, idx)` — the per-fragment local index along axis
`d`, i.e. `idx mod F_d`. -/
def Gvt.fs_index (g : Gvt) (d idx : Nat) : Nat :=
  idx % g.fragAt d

/-- Modelled from the spec (section 4.1): `slice(d, idx)` — all fragment
IDs on the 2-D face fixing axis `d`, with `k = idx / F_d` placed at
position `d` and the other two axes ranging over their fragment counts, in
lexicographic order. -/
def Gvt.slice (g : Gvt) (d idx : Nat) : List Fid :=
  let k := idx / g.fragAt d
  if d = 0 then
    (List.range (g.fragment_count 1)).flatMap fun i =>
      (List.range (g.fragment_count 2)).map fun j => (k, i, j)
  else if d = 1 then
    (List.range (g.fragment_count 0)).flatMap fun i =>
      (List.range (g.fragment_count 2)).map fun j => (i, k, j)
  else
    (List.range (g.fragment_count 0)).flatMap fun i =>
      (List.range (g.fragment_count 1)).map fun j => (i, j, k)

/-- Translation of `geometry(const basic_query&)`: cube shape from the
sizes of the manifest line-number lists, fragment shape from the manifest. -/
def queryGvt (m : Manifest) : Gvt :=
  { cube := (m.ln0.length, m.ln1.length, m.ln2.length), frag := m.frag }

/-- Translation of `geometry(const basic_task&)` applied to a task built
from an attribute descriptor: cube shape from the sizes of the attribute
line-number lists, fragment shape from the attribute (spec section 4.3,
step 4b). -/
def attrGvt (a : AttrDesc) : Gvt :=
  { cube := (a.ln0.length, a.ln1.length, a.ln2.length), frag := a.frag }

/-- Modelled from the spec (section 3): a slice query — pid, manifest,
queried axis, index along that axis, and requested attributes. -/
structure SliceQuery where
  pid : String
  manifest : Manifest
  dim : Nat
  idx : Nat
  attributes : List String
deriving DecidableEq, Repr

/-- Modelled from the spec (section 3): a curtain query — pid, manifest,
the two parallel coordinate arrays, and requested attributes. -/
structure CurtainQuery where
  pid : String
  manifest : Manifest
  dim0s : List Nat
  dim1s : List Nat
  attributes : List String
deriving DecidableEq, Repr

/-- Modelled from the spec (section 3): a slice fragment-job.  The
`attribute` field records which target the job extracts from: `none` for
the data cube, `some name` for an attribute volume (one job per target). -/
structure SliceTask where
  target : Option String
  dim : Nat
  idx : Nat
  ids : List Fid
deriving DecidableEq, Repr

/-- Modelled from the spec (section 3): one `single` record of a curtain
job — a fragment ID, the fragment-local (x, y) coordinate pairs to extract
there, and the input index at which the fragment was first touched. -/
structure Single where
  id : Fid
  coordinates : List (Nat × Nat)
  offset : Nat
deriving DecidableEq, Repr

/-- Modelled from the spec (section 3): a curtain fragment-job, a list of
`single` records.  The `attribute` field records the target, as for slice
jobs. -/
structure CurtainTask where
  target : Option String
  ids : List Single
deriving DecidableEq, Repr

/-- Translation of `find_desc`: first descriptor of `manifest.attr` whose
`type` equals the attribute name. -/
def find_desc (m : Manifest) (attr : String) : Option AttrDesc :=
  m.attr.find? fun desc => desc.type == attr

/-- Translation of `normalized_attributes`, step 1: expand `"cdp"` into
`"cdpx", "cdpy"`, keep everything else. -/
def expand_cdp (attrs : List String) : List String :=
  attrs.flatMap fun attr => if attr = "cdp" then ["cdpx", "cdpy"] else [attr]

/-- Translation of `std::unique`: drop adjacent duplicate elements, keeping
the first of each run. -/
def uniqueAdj : List String → List String
  | [] => []
  | [a] => [a]
  | a :: b :: rest =>
    if a = b then uniqueAdj (a :: rest) else a :: uniqueAdj (b :: rest)
termination_by l => l.length

/-- Translation of `normalized_attributes`: expand `"cdp"`, sort
ascending, remove adjacent duplicates. -/
def normalized_attributes (attrs : List String) : List String :=
  uniqueAdj (List.insertionSort (· ≤ ·) (expand_cdp attrs))

/-- Translation of `build(const slice_query&)`, data job: local index
`fragment_shape().index(dim, idx)` and ids `gvt.slice(dim, idx)`. -/
def sliceData (q : SliceQuery) : SliceTask :=
  let g := queryGvt q.manifest
  { target := none
    dim := q.dim
    idx := g.fs_index q.dim q.idx
    ids := g.slice q.dim q.idx }

/-- Translation of `build(const slice_query&)`, attribute job: a fresh
geometry from the descriptor, the queried index wrapped by
`idx % cube_shape[dim]`, then local index and slice as for the data job. -/
def sliceAttrTask (q : SliceQuery) (desc : AttrDesc) : SliceTask :=
  let g3 := attrGvt desc
  let idx := q.idx % g3.cubeAt q.dim
  { target := some desc.type
    dim := q.dim
    idx := g3.fs_index q.dim idx
    ids := g3.slice q.dim idx }

/-- Translation of `build(const slice_query&)`: the data job first, then
one job per requested attribute that the manifest declares (attributes
without a descriptor are silently dropped). -/
def buildSlice (q : SliceQuery) : List SliceTask :=
  sliceData q ::
    q.attributes.filterMap fun attr => (find_desc q.manifest attr).map (sliceAttrTask q)

/-- Translation of the column insertion in `build(const curtain_query&)`:
the `zfrags` copies of the top single inserted for a fresh x-y fragment,
with the third id component rewritten to `0, …, zfrags-1`. -/
def columnAt (fid : Fid) (zfrags : Nat) (off : Nat) : List Single :=
  (List.range zfrags).map fun z => { id := (fid.1, fid.2.1, z), coordinates := [], offset := off }

/-- Translation of the first loop body of `build(const curtain_query&)`:
binary-search (`std::lower_bound` under the sortedness invariant) for the
fragment of input point `p`, and if its column is absent insert the
`zfrags` column singles there. -/
def insertBins (g : Gvt) (zfrags : Nat) (ids : List Single) (i : Nat) (p : Nat × Nat)
    : List Single :=
  let fid := g.frag_id (p.1, p.2, 0)
  let pre := ids.takeWhile fun s => fidLt s.id fid
  let rest := ids.dropWhile fun s => fidLt s.id fid
  match rest with
  | [] => pre ++ columnAt fid zfrags i
  | s :: _ => if s.id = fid then ids else pre ++ columnAt fid zfrags i ++ rest

/-- Translation of the second loop body of `build(const curtain_query&)`:
locate the column of input point `p` and append its fragment-local (x, y)
pair to every single in the z-column. -/
def addCoords (g : Gvt) (zfrags : Nat) (ids : List Single) (p : Nat × Nat) : List Single :=
  let fid := g.frag_id (p.1, p.2, 0)
  let lid := g.to_local (p.1, p.2, 0)
  let pre := ids.takeWhile fun s => fidLt s.id fid
  let rest := ids.dropWhile fun s => fidLt s.id fid
  pre ++ ((rest.take zfrags).map fun s =>
    { s with coordinates := s.coordinates ++ [(lid.1, lid.2.1)] }) ++ rest.drop zfrags

/-- Translation of `build(const curtain_query&)`, data job: pre-allocate
the sorted bins for every input point, then traverse the points again and
bin their local coordinates. -/
def curtainData (q : CurtainQuery) : CurtainTask :=
  let g := queryGvt q.manifest
  let zfrags := g.fragment_count 2
  let ps := q.dim0s.zip q.dim1s
  let bins := ps.enum.foldl (fun ids ip => insertBins g zfrags ids ip.1 ip.2) []
  { target := none
    ids := ps.foldl (fun ids p => addCoords g zfrags ids p) bins }

/-- Translation of the attribute loop body of `build(const curtain_query&)`:
insert a lone single for the point's fragment if absent (offset = input
index, coordinates empty), then append the local coordinate pair to it. -/
def attrStep (g : Gvt) (ids : List Single) (i : Nat) (p : Nat × Nat) : List Single :=
  let fid := g.frag_id (p.1, p.2, 0)
  let lid := g.to_local (p.1, p.2, 0)
  let c := (lid.1, lid.2.1)
  let pre := ids.takeWhile fun s => fidLt s.id fid
  let rest := ids.dropWhile fun s => fidLt s.id fid
  match rest with
  | [] => pre ++ [{ id := fid, coordinates := [c], offset := i }]
  | s :: tl =>
    if s.id = fid then pre ++ ({ s with coordinates := s.coordinates ++ [c] } :: tl)
    else pre ++ ({ id := fid, coordinates := [c], offset := i } :: s :: tl)

/-- Translation of `build(const curtain_query&)`, attribute job for one
descriptor: a fresh geometry, then one pass over the input points. -/
def curtainAttrTask (q : CurtainQuery) (desc : AttrDesc) : CurtainTask :=
  let g := attrGvt desc
  let ps := q.dim0s.zip q.dim1s
  { target := some desc.type
    ids := ps.enum.foldl (fun ids ip => attrStep g ids ip.1 ip.2) [] }

/-- Translation of `build(const curtain_query&)`: the data job first, then
one job per requested attribute that the manifest declares. -/
def buildCurtain (q : CurtainQuery) : List CurtainTask :=
  curtainData q ::
    q.attributes.filterMap fun attr => (find_desc q.manifest attr).map (curtainAttrTask q)

/-- The function tag of a process header (`functionid`). -/
inductive Functionid where
  | slice
  | curtain
deriving DecidableEq, Repr

/-- Translation of `process_header` (declared in `messages.hpp`, filled in
by `plan.cpp`). -/
structure ProcessHeader where
  pid : String
  function : Functionid
  nbundles : Nat
  ndims : Nat
  labels : List String
  attributes : List String
  index : List Int
  shapes : List Int
deriving DecidableEq, Repr

/-- Translation of `header(const slice_query&, int)`. -/
def sliceHeader (q : SliceQuery) (ntasks : Nat) : ProcessHeader :=
  let m := q.manifest
  let index : List Int :=
    ([0, 1, 2].map fun i => if i ≠ q.dim then ((m.ln i).length : Int) else 1)
      ++ ([0, 1, 2].flatMap fun i =>
            if i ≠ q.dim then m.ln i else [(m.ln i).getD q.idx 0])
  { pid := q.pid
    function := .slice
    nbundles := ntasks
    ndims := 3
    labels := m.line_labels
    attributes := "data" :: q.attributes
    index := index
    shapes :=
      ((3 : Int) :: index.take 3)
        ++ q.attributes.flatMap fun _ => (3 : Int) :: index.take 2 ++ [1] }

/-- Translation of `header(const curtain_query&, int)`. -/
def curtainHeader (q : CurtainQuery) (ntasks : Nat) : ProcessHeader :=
  let m := q.manifest
  let index : List Int :=
    [(q.dim0s.length : Int), (q.dim1s.length : Int), (m.ln2.length : Int)]
      ++ q.dim0s.map (fun x => m.ln0.getD x 0)
      ++ q.dim1s.map (fun x => m.ln1.getD x 0)
      ++ m.ln2
  { pid := q.pid
    function := .curtain
    nbundles := ntasks
    ndims := 3
    labels := m.line_labels
    attributes := "data" :: q.attributes
    index := index
    shapes :=
      ((2 : Int) :: (index.drop 1).take 2)
        ++ q.attributes.flatMap fun _ => [(1 : Int), index.headD 0] }

/-- The error kinds the driver can fail with, one constructor per C++
exception type thrown by or through `plan.cpp`: `bad_document`,
`std::logic_error`, `std::runtime_error`, and the `nlohmann::json`
exceptions (parse errors and `.at` key lookups). -/
inductive PlanError where
  | badDocument (msg : String)
  | logicError (msg : String)
  | runtimeError (msg : String)
  | jsonError (msg : String)
deriving DecidableEq, Repr

/-- Translation of `task_count`: the number of task-size'd tasks needed,
`(jobs + task_size - 1) / task_size`, throwing `std::runtime_error` when
the result is not positive. -/
def task_count (jobs task_size : Nat) : Except PlanError Nat :=
  let x := (jobs + (task_size - 1)) / task_size
  if x ≤ 0 then .error (.runtimeError "task-count < 0; probably integer overflow")
  else .ok x

/-- Translation of the inner loop of `partition`: the `n` successive
windows of `task_size` elements taken from the front of `ids`. -/
def windows (task_size : Nat) : Nat → List α → List (List α)
  | 0, _ => []
  | n + 1, ids => ids.take task_size :: windows task_size n (ids.drop task_size)

/-- Translation of one iteration of the outer loop of `partition`: the
bundles produced for one job, as the list of its `ids` windows. -/
def partitionJob (task_size : Nat) (ids : List α) : Except PlanError (List (List α)) := do
  let n ← task_count ids.length task_size
  pure (windows task_size n ids)

/-- Translation of `partition`: reject `task_size < 1` with
`std::logic_error`, then emit every job's bundles in job order.  A bundle
is modelled by its `ids` window (the source serializes the job with its
window in place of the full `ids`). -/
def partition (idss : List (List α)) (task_size : Nat)
    : Except PlanError (List (List (List α))) :=
  if task_size < 1 then
    .error (.logicError ("task_size (= " ++ toString task_size ++ ") < 1"))
  else idss.mapM fun ids => partitionJob task_size ids

/-- Modelled from the spec (section 6): the JSON query document, restricted
to the fields `mkschedule` and the query decoders read.  Fields looked up
with `.at(...)` are `Option`s; a missing key makes the lookup throw. -/
structure Document where
  manifest : Option Manifest
  format_version : Option Int
  function : Option String
  pid : String
  attributes : List String
  dim : Nat
  idx : Nat
  dim0s : List Nat
  dim1s : List Nat
deriving DecidableEq, Repr

/-- The driver's result: the bundles (per job, in emission order) and the
process header of the trailing envelope, for either query shape. -/
inductive TasksetV where
  | slice (bundles : List (List (List Fid))) (head : ProcessHeader)
  | curtain (bundles : List (List (List Single))) (head : ProcessHeader)
deriving DecidableEq, Repr

/-- Translation of `schedule< slice_query >`: decode, normalize the
attributes, build, partition, then build the header from the bundle
count. -/
def scheduleSlice (m : Manifest) (doc : Document) (task_size : Nat)
    : Except PlanError TasksetV := do
  let q : SliceQuery :=
    { pid := doc.pid
      manifest := m
      dim := doc.dim
      idx := doc.idx
      attributes := normalized_attributes doc.attributes }
  let tasks := buildSlice q
  let parts ← partition (tasks.map SliceTask.ids) task_size
  let ntasks := (parts.map List.length).sum
  pure (.slice parts (sliceHeader q ntasks))

/-- Translation of `schedule< curtain_query >`. -/
def scheduleCurtain (m : Manifest) (doc : Document) (task_size : Nat)
    : Except PlanError TasksetV := do
  let q : CurtainQuery :=
    { pid := doc.pid
      manifest := m
      dim0s := doc.dim0s
      dim1s := doc.dim1s
      attributes := normalized_attributes doc.attributes }
  let tasks := buildCurtain q
  let parts ← partition (tasks.map CurtainTask.ids) task_size
  let ntasks := (parts.map List.length).sum
  pure (.curtain parts (curtainHeader q ntasks))

/-- Translation of `mkschedule`: check `manifest.format-version`
(building the failure message from the top-level `format-version` field,
exactly as the source does), then dispatch on `function`. -/
def mkschedule (doc : Document) (task_size : Nat) : Except PlanError TasksetV := do
  match doc.manifest with
  | none => .error (.jsonError "key manifest not found")
  | some m =>
    match m.format_version with
    | none => .error (.jsonError "key format-version not found")
    | some fv =>
      if fv ≠ 1 then
        match doc.format_version with
        | none => .error (.jsonError "key format-version not found")
        | some v =>
          .error (.badDocument
            ("unsupported format-version; expected 1, was " ++ toString v))
      else
        match doc.function with
        | none => .error (.jsonError "key function not found")
        | some f =>
          if f = "slice" then scheduleSlice m doc task_size
          else if f = "curtain" then scheduleCurtain m doc task_size
          else .error (.logicError ("No handler for function " ++ f))

/-- Component of a fragment ID along axis `d`. -/
def fidCoord (f : Fid) (d : Nat) : Nat :=
  if d = 0 then f.1 else if d = 1 then f.2.1 else f.2.2

theorem sum_map_const {α : Type} (l : List α) (b : Nat) :
    (l.map fun _ => b).sum = l.length * b := by
  induction l with
  | nil => simp
  | cons a l ih => simp [ih, Nat.succ_mul, Nat.add_comm]

theorem slice_length (g : Gvt) (d idx : Nat) :
    (g.slice d idx).length =
      if d = 0 then g.fragment_count 1 * g.fragment_count 2
      else if d = 1 then g.fragment_count 0 * g.fragment_count 2
      else g.fragment_count 0 * g.fragment_count 1 := by
  by_cases h0 : d = 0 <;> by_cases h1 : d = 1 <;>
    simp [Gvt.slice, h0, h1, List.length_flatMap, Function.comp_def, sum_map_const]

theorem slice_zero (g : Gvt) (idx : Nat) :
    g.slice 0 idx =
      (List.range (g.fragment_count 1)).flatMap
        (fun i => (List.range (g.fragment_count 2)).map fun j => (idx / g.fragAt 0, i, j)) := rfl

theorem slice_one (g : Gvt) (idx : Nat) :
    g.slice 1 idx =
      (List.range (g.fragment_count 0)).flatMap
        (fun i => (List.range (g.fragment_count 2)).map fun j => (i, idx / g.fragAt 1, j)) := rfl

theorem slice_two (g : Gvt) (idx : Nat) :
    g.slice 2 idx =
      (List.range (g.fragment_count 0)).flatMap
        (fun i => (List.range (g.fragment_count 1)).map fun j => (i, j, idx / g.fragAt 2)) := rfl

theorem slice_coord (g : Gvt) (d idx : Nat) (hd : d < 3) :
    ∀ fid ∈ g.slice d idx, fidCoord fid d = idx / g.fragAt d := by
  intro fid hmem
  interval_cases d
  case «0» =>
    rw [slice_zero, List.mem_flatMap] at hmem
    obtain ⟨i, -, hmem⟩ := hmem
    rw [List.mem_map] at hmem
    obtain ⟨j, -, rfl⟩ := hmem
    rfl
  case «1» =>
    rw [slice_one, List.mem_flatMap] at hmem
    obtain ⟨i, -, hmem⟩ := hmem
    rw [List.mem_map] at hmem
    obtain ⟨j, -, rfl⟩ := hmem
    rfl
  case «2» =>
    rw [slice_two, List.mem_flatMap] at hmem
    obtain ⟨i, -, hmem⟩ := hmem
    rw [List.mem_map] at hmem
    obtain ⟨j, -, rfl⟩ := hmem
    rfl

/-- C1: for a slice query on axis `d` with index `idx` in range, the data
job of the plan has every fragment-ID with `d`-coordinate `idx / F_d`, a
stored local index of `idx mod F_d`, and exactly
`fragment_count(d0) * fragment_count(d1)` fragment-IDs over the two other
axes. -/
theorem C1_slice_data_job (q : SliceQuery)
    (hd : q.dim < 3)
    (hidx : q.idx < (queryGvt q.manifest).cubeAt q.dim) :
    (buildSlice q).head? = some (sliceData q) ∧
    (∀ fid ∈ (sliceData q).ids,
        fidCoord fid q.dim = q.idx / (queryGvt q.manifest).fragAt q.dim) ∧
    (sliceData q).idx = q.idx % (queryGvt q.manifest).fragAt q.dim ∧
    (sliceData q).ids.length =
      (if q.dim = 0 then
        (queryGvt q.manifest).fragment_count 1 * (queryGvt q.manifest).fragment_count 2
      else if q.dim = 1 then
        (queryGvt q.manifest).fragment_count 0 * (queryGvt q.manifest).fragment_count 2
      else
        (queryGvt q.manifest).fragment_count 0 * (queryGvt q.manifest).fragment_count 1) := by
  refine ⟨rfl, ?_, rfl, slice_length ..⟩
  exact slice_coord _ _ _ hd

def exManifest : Manifest where
  format_version := some 1
  line_labels := ["Inline", "Crossline", "Depth"]
  ln0 := [100, 101, 102, 103]
  ln1 := [10, 11, 12, 13]
  ln2 := [0, 4, 8, 12]
  frag := (2, 2, 2)
  attr := []

def exSliceQuery : SliceQuery := ⟨"pid0", exManifest, 0, 3, []⟩

/-- Witness for C1, at the spec's scenario S1 (cube (4,4,4), fragments
(2,2,2), dim 0, idx 3). -/
theorem C1_slice_data_job_witness :
    (buildSlice exSliceQuery).head? = some (sliceData exSliceQuery) ∧
    (∀ fid ∈ (sliceData exSliceQuery).ids,
        fidCoord fid exSliceQuery.dim =
          exSliceQuery.idx / (queryGvt exSliceQuery.manifest).fragAt exSliceQuery.dim) ∧
    (sliceData exSliceQuery).idx =
      exSliceQuery.idx % (queryGvt exSliceQuery.manifest).fragAt exSliceQuery.dim ∧
    (sliceData exSliceQuery).ids.length =
      (if exSliceQuery.dim = 0 then
        (queryGvt exSliceQuery.manifest).fragment_count 1 *
          (queryGvt exSliceQuery.manifest).fragment_count 2
      else if exSliceQuery.dim = 1 then
        (queryGvt exSliceQuery.manifest).fragment_count 0 *
          (queryGvt exSliceQuery.manifest).fragment_count 2
      else
        (queryGvt exSliceQuery.manifest).fragment_count 0 *
          (queryGvt exSliceQuery.manifest).fragment_count 1) :=
  C1_slice_data_job exSliceQuery (by decide) (by decide)

/-- C9: the slice header's `index` is the three per-axis sizes followed by
the per-axis line-number lists in axis order, with the queried axis
contributing size 1 and the single queried line number. -/
theorem C9_slice_header_index (q : SliceQuery) (n : Nat)
    (hd : q.dim < 3)
    (hidx : q.idx < (q.manifest.ln q.dim).length) :
    (sliceHeader q n).index =
      (if q.dim = 0 then
        1 :: (q.manifest.ln1.length : Int) :: [(q.manifest.ln2.length : Int)]
          ++ ((q.manifest.ln q.dim).get ⟨q.idx, hidx⟩ :: q.manifest.ln1 ++ q.manifest.ln2)
      else if q.dim = 1 then
        (q.manifest.ln0.length : Int) :: 1 :: [(q.manifest.ln2.length : Int)]
          ++ (q.manifest.ln0 ++ (q.manifest.ln q.dim).get ⟨q.idx, hidx⟩ :: q.manifest.ln2)
      else
        (q.manifest.ln0.length : Int) :: (q.manifest.ln1.length : Int) :: [1]
          ++ (q.manifest.ln0 ++ q.manifest.ln1 ++ [(q.manifest.ln q.dim).get ⟨q.idx, hidx⟩])) := by
  obtain ⟨pid, m, dim, idx, attrs⟩ := q
  simp only at hd hidx ⊢
  interval_cases dim
  case «0» =>
    have h0 : idx < m.ln0.length := by simpa [Manifest.ln] using hidx
    simp [sliceHeader, Manifest.ln, List.getD_eq_getElem _ _ h0, List.getElem?_eq_getElem h0, List.get_eq_getElem]
  case «1» =>
    have h1 : idx < m.ln1.length := by simpa [Manifest.ln] using hidx
    simp [sliceHeader, Manifest.ln, List.getD_eq_getElem _ _ h1, List.getElem?_eq_getElem h1, List.get_eq_getElem]
  case «2» =>
    have h2 : idx < m.ln2.length := by simpa [Manifest.ln] using hidx
    simp [sliceHeader, Manifest.ln, List.getD_eq_getElem _ _ h2, List.getElem?_eq_getElem h2, List.get_eq_getElem]

/-- Witness for C9, at the spec's scenario S1. -/
theorem C9_slice_header_index_witness :
    (sliceHeader exSliceQuery 1).index =
      (if exSliceQuery.dim = 0 then
        1 :: (exSliceQuery.manifest.ln1.length : Int) :: [(exSliceQuery.manifest.ln2.length : Int)]
          ++ ((exSliceQuery.manifest.ln exSliceQuery.dim).get ⟨exSliceQuery.idx, by decide⟩
                :: exSliceQuery.manifest.ln1 ++ exSliceQuery.manifest.ln2)
      else if exSliceQuery.dim = 1 then
        (exSliceQuery.manifest.ln0.length : Int) :: 1 :: [(exSliceQuery.manifest.ln2.length : Int)]
          ++ (exSliceQuery.manifest.ln0
                ++ (exSliceQuery.manifest.ln exSliceQuery.dim).get ⟨exSliceQuery.idx, by decide⟩
                :: exSliceQuery.manifest.ln2)
      else
        (exSliceQuery.manifest.ln0.length : Int) :: (exSliceQuery.manifest.ln1.length : Int) :: [1]
          ++ (exSliceQuery.manifest.ln0 ++ exSliceQuery.manifest.ln1
                ++ [(exSliceQuery.manifest.ln exSliceQuery.dim).get ⟨exSliceQuery.idx, by decide⟩])) :=
  C9_slice_header_index exSliceQuery 1 (by decide) (by decide)

theorem mem_uniqueAdj {x : String} : ∀ {l : List String}, x ∈ uniqueAdj l ↔ x ∈ l := by
  intro l
  induction l using uniqueAdj.induct with
  | case1 => simp [uniqueAdj]
  | case2 a => simp [uniqueAdj]
  | case3 b rest ih =>
    simp only [uniqueAdj, if_pos rfl, if_true]
    rw [ih]
    simp
  | case4 a b rest hab ih =>
    simp only [uniqueAdj, if_neg hab, if_false]
    rw [List.mem_cons, ih]
    simp

theorem uniqueAdj_sorted : ∀ {l : List String},
    l.Pairwise (· ≤ ·) → (uniqueAdj l).Pairwise (· < ·) := by
  intro l
  induction l using uniqueAdj.induct with
  | case1 => simp [uniqueAdj]
  | case2 a => simp [uniqueAdj]
  | case3 b rest ih =>
    intro h
    simp only [uniqueAdj, if_pos rfl, if_true]
    exact ih (List.pairwise_cons.1 h).2
  | case4 a b rest hab ih =>
    intro h
    rcases List.pairwise_cons.1 h with ⟨ha, h2⟩
    simp only [uniqueAdj, if_neg hab, if_false]
    refine List.pairwise_cons.2 ⟨?_, ih h2⟩
    intro x hx
    have hx2 : x ∈ b :: rest := mem_uniqueAdj.1 hx
    have hlt : a < b := lt_of_le_of_ne (ha b (List.mem_cons_self b rest)) hab
    rcases List.mem_cons.1 hx2 with rfl | hx3
    · exact hlt
    · exact lt_of_lt_of_le hlt ((List.pairwise_cons.1 h2).1 x hx3)

theorem mem_expand_cdp {attrs : List String} {x : String} :
    x ∈ expand_cdp attrs ↔
      (x ∈ attrs ∧ x ≠ "cdp") ∨ ("cdp" ∈ attrs ∧ (x = "cdpx" ∨ x = "cdpy")) := by
  simp only [expand_cdp, List.mem_flatMap]
  constructor
  · rintro ⟨a, ha, hx⟩
    by_cases hc : a = "cdp"
    · subst hc
      rw [if_pos rfl] at hx
      right
      refine ⟨ha, ?_⟩
      simpa using hx
    · rw [if_neg hc] at hx
      simp only [List.mem_singleton] at hx
      subst hx
      exact Or.inl ⟨ha, hc⟩
  · rintro (⟨ha, hne⟩ | ⟨hc, hxy⟩)
    · exact ⟨x, ha, by rw [if_neg hne]; simp⟩
    · exact ⟨"cdp", hc, by rw [if_pos rfl]; rcases hxy with rfl | rfl <;> simp⟩

/-- C8: the normalized attribute list is the requested list with `"cdp"`
replaced by `"cdpx", "cdpy"`, sorted ascending and deduplicated — strictly
sorted, with membership exactly that of the expansion, and never
containing `"cdp"` itself. -/
theorem C8_attribute_normalization (attrs : List String) :
    (normalized_attributes attrs).Pairwise (· < ·) ∧
    (∀ x, x ∈ normalized_attributes attrs ↔
        ((x ∈ attrs ∧ x ≠ "cdp") ∨ ("cdp" ∈ attrs ∧ (x = "cdpx" ∨ x = "cdpy")))) ∧
    "cdp" ∉ normalized_attributes attrs := by
  have hs : (List.insertionSort (· ≤ ·) (expand_cdp attrs)).Pairwise (· ≤ ·) :=
    List.sorted_insertionSort _ _
  have hmem : ∀ x, x ∈ normalized_attributes attrs ↔ x ∈ expand_cdp attrs := by
    intro x
    rw [normalized_attributes, mem_uniqueAdj]
    exact (List.perm_insertionSort _ _).mem_iff
  refine ⟨uniqueAdj_sorted hs, fun x => (hmem x).trans mem_expand_cdp, ?_⟩
  intro hc
  rcases mem_expand_cdp.1 ((hmem _).1 hc) with ⟨-, hne⟩ | ⟨-, hxy⟩
  · exact hne rfl
  · rcases hxy with h | h <;> revert h <;> decide

/-- Witness for C8 at a concrete request. -/
theorem C8_attribute_normalization_witness :
    "cdp" ∉ normalized_attributes ["cdp", "depth", "cdpx", "depth"] :=
  (C8_attribute_normalization ["cdp", "depth", "cdpx", "depth"]).2.2

theorem lt_div_succ_mul (a b : Nat) (hb : 0 < b) : a < (a / b + 1) * b := by
  rw [Nat.add_mul, Nat.one_mul]
  have h := Nat.div_add_mod a b
  have h2 : a % b < b := Nat.mod_lt _ hb
  have h3 : a / b * b = b * (a / b) := Nat.mul_comm ..
  omega

theorem ceil_div_of_pos (L k : Nat) (hk : 0 < k) (hL : 0 < L) :
    (L + (k - 1)) / k = (L - 1) / k + 1 := by
  have h : L + (k - 1) = (L - 1) + k := by omega
  rw [h, Nat.add_div_right _ hk]

theorem length_le_ceil_mul (L k : Nat) (hk : 0 < k) (hL : 0 < L) :
    L ≤ ((L + (k - 1)) / k) * k := by
  rw [ceil_div_of_pos L k hk hL]
  have h := lt_div_succ_mul (L - 1) k hk
  omega

theorem task_count_ok (L k : Nat) (hk : 0 < k) (hL : 0 < L) :
    task_count L k = .ok ((L + (k - 1)) / k) := by
  have hq := ceil_div_of_pos L k hk hL
  simp [task_count, hq]

theorem windows_length {α : Type} (k : Nat) :
    ∀ (n : Nat) (ids : List α), (windows k n ids).length = n := by
  intro n
  induction n with
  | zero => intro ids; rfl
  | succ n ih => intro ids; simp [windows, ih]

theorem windows_flatten {α : Type} (k : Nat) :
    ∀ (n : Nat) (ids : List α), ids.length ≤ n * k → (windows k n ids).flatten = ids := by
  intro n
  induction n with
  | zero =>
    intro ids h
    simp only [Nat.zero_mul, Nat.le_zero, List.length_eq_zero] at h
    simp [windows, h]
  | succ n ih =>
    intro ids h
    have hmul : (n + 1) * k = n * k + k := Nat.succ_mul n k
    simp only [windows, List.flatten_cons]
    rw [ih (ids.drop k) (by simp only [List.length_drop]; omega)]
    exact List.take_append_drop ..

theorem partitionJob_ok {α : Type} (k : Nat) (ids : List α) (hk : 0 < k) (hne : ids ≠ []) :
    partitionJob k ids = .ok (windows k ((ids.length + (k - 1)) / k) ids) := by
  have hL : 0 < ids.length := List.length_pos.2 hne
  rw [partitionJob, task_count_ok _ _ hk hL]
  rfl

theorem mapM_partitionJob_ok {α : Type} (k : Nat) (hk : 0 < k) :
    ∀ (idss : List (List α)), (∀ ids ∈ idss, ids ≠ []) →
      idss.mapM (fun ids => partitionJob k ids) =
        .ok (idss.map fun ids => windows k ((ids.length + (k - 1)) / k) ids) := by
  intro idss hne
  induction idss with
  | nil => rfl
  | cons ids idss ih =>
    rw [List.mapM_cons, partitionJob_ok k ids hk (hne _ (List.mem_cons_self ..)),
      ih fun i hi => hne _ (List.mem_cons_of_mem _ hi)]
    rfl

theorem partition_ok {α : Type} (idss : List (List α)) (k : Nat) (hk : 0 < k)
    (hne : ∀ ids ∈ idss, ids ≠ []) :
    partition idss k = .ok (idss.map fun ids => windows k ((ids.length + (k - 1)) / k) ids) := by
  rw [partition, if_neg (by omega)]
  exact mapM_partitionJob_ok k hk idss hne

theorem forall2_windows {α : Type} (k : Nat) (hk : 0 < k) :
    ∀ (idss : List (List α)), (∀ ids ∈ idss, ids ≠ []) →
      List.Forall₂ (fun ws ids => ws.flatten = ids)
        (idss.map fun ids => windows k ((ids.length + (k - 1)) / k) ids) idss := by
  intro idss hne
  induction idss with
  | nil => constructor
  | cons ids idss ih =>
    constructor
    · have hL : 0 < ids.length := List.length_pos.2 (hne _ (List.mem_cons_self ..))
      exact windows_flatten k _ ids (length_le_ceil_mul _ _ hk hL)
    · exact ih fun i hi => hne _ (List.mem_cons_of_mem _ hi)

/-- C3 (amended): for jobs that each carry at least one fragment-ID and any
`task_size ≥ 1`, `partition` succeeds; per job, concatenating its bundles'
`ids` windows in emission order reproduces the job's original `ids`, and
the total number of bundles is the sum over jobs of
`ceil(|ids| / task_size)`.  (The original claim, quantified over every job
list, fails when some job has an empty `ids`: `task_count` then throws —
see the counterexample.) -/
theorem C3_partition_reassembles {α : Type} (idss : List (List α)) (task_size : Nat)
    (hts : 1 ≤ task_size) (hne : ∀ ids ∈ idss, ids ≠ []) :
    ∃ bss, partition idss task_size = .ok bss ∧
      List.Forall₂ (fun ws ids => ws.flatten = ids) bss idss ∧
      (bss.map List.length).sum =
        (idss.map fun ids => (ids.length + (task_size - 1)) / task_size).sum := by
  refine ⟨_, partition_ok idss task_size hts hne, forall2_windows _ hts idss hne, ?_⟩
  rw [List.map_map]
  congr 1
  exact List.map_congr_left fun ids _ => windows_length task_size _ ids

/-- Counterexample to C3 as stated: on a job list containing a job with no
fragment-IDs, `partition` raises (the `task_count` guard trips) and no
bundles are emitted, where the claim demands success with zero bundles for
that job. -/
theorem C3_counterexample :
    partition [([] : List Fid)] 1 =
      .error (.runtimeError "task-count < 0; probably integer overflow") ∧
    ∀ bss : List (List (List Fid)), partition [([] : List Fid)] 1 ≠ .ok bss := by
  refine ⟨rfl, ?_⟩
  intro bss h
  rw [show partition [([] : List Fid)] 1 =
    .error (.runtimeError "task-count < 0; probably integer overflow") from rfl] at h
  cases h

/-- Witness for C3 (amended), at the spec's scenario S5: one job of five
ids with task size 2 gives three bundles of sizes 2, 2, 1. -/
theorem C3_partition_reassembles_witness :
    ∃ bss, partition [([(0, 0, 0), (0, 0, 1), (0, 1, 0), (0, 1, 1), (1, 0, 0)] : List Fid)] 2 =
        .ok bss ∧
      List.Forall₂ (fun ws ids => ws.flatten = ids) bss
        [([(0, 0, 0), (0, 0, 1), (0, 1, 0), (0, 1, 1), (1, 0, 0)] : List Fid)] ∧
      (bss.map List.length).sum =
        ([([(0, 0, 0), (0, 0, 1), (0, 1, 0), (0, 1, 1), (1, 0, 0)] : List Fid)].map
          fun ids => (ids.length + (2 - 1)) / 2).sum :=
  C3_partition_reassembles _ 2 (by decide) (by decide)

def exZeroManifest : Manifest where
  format_version := some 1
  line_labels := ["Inline", "Crossline", "Depth"]
  ln0 := [10]
  ln1 := []
  ln2 := [5]
  frag := (1, 1, 1)
  attr := []

def exZeroExtentDoc : Document where
  manifest := some exZeroManifest
  format_version := none
  function := some "slice"
  pid := "p0"
  attributes := []
  dim := 0
  idx := 0
  dim0s := []
  dim1s := []

/-- C4: on a slice query over a cube with zero extent on an axis (so the
enumerated fragment-ID set is empty) the pipeline does not produce an
empty plan — it raises `std::runtime_error` out of `task_count`, whose
guard `x <= 0` also trips on the legitimate zero-job case (its own message
speaks of a count below zero and integer overflow, neither of which is the
case here). -/
theorem C4_empty_plan_raises :
    mkschedule exZeroExtentDoc 1 =
      .error (.runtimeError "task-count < 0; probably integer overflow") := rfl

def exBadVersionManifest : Manifest :=
  { exManifest with format_version := some 2 }

def exBadVersionDoc : Document where
  manifest := some exBadVersionManifest
  format_version := none
  function := some "slice"
  pid := "p0"
  attributes := []
  dim := 0
  idx := 3
  dim0s := []
  dim1s := []

/-- C5: on a document whose manifest carries `format-version: 2` and which
(as in the documented input layout) has no top-level `format-version`
field, the driver does not fail with `BadDocument`: while building the
error message it evaluates `document.at("format-version")` — the top-level
lookup — which throws the JSON library's out-of-range error instead. -/
theorem C5_format_version_wrong_error_kind :
    mkschedule exBadVersionDoc 1 = .error (.jsonError "key format-version not found") := rfl

def exUnknownFunctionDoc : Document where
  manifest := some exManifest
  format_version := none
  function := some "horizon"
  pid := "p0"
  attributes := []
  dim := 0
  idx := 3
  dim0s := []
  dim1s := []

/-- Counterexample to C6 as stated: an unrecognized `function` makes the
driver throw `std::logic_error` — the very same error kind that signals
`LogicError` conditions such as `task_size < 1` (second conjunct) — so the
failure is not of a kind distinguishable from `LogicError`. -/
theorem C6_counterexample :
    mkschedule exUnknownFunctionDoc 1 =
      .error (.logicError "No handler for function horizon") ∧
    partition [[((0 : Nat), (0 : Nat), (0 : Nat))]] 0 =
      (.error (.logicError "task_size (= 0) < 1") : Except PlanError (List (List (List Fid)))) :=
  ⟨rfl, rfl⟩

/-- C6 (amended): on a document with a valid format-version whose
`function` is neither `"slice"` nor `"curtain"`, the driver fails with a
`logic_error` reading `No handler for function <f>` — distinguishable from
`BadDocument`, but of the same kind as the `LogicError` precondition
failures, not a separate `UnknownFunction` kind. -/
theorem C6_unknown_function_logic_error (doc : Document) (m : Manifest) (task_size : Nat)
    (f : String) (hm : doc.manifest = some m) (hfv : m.format_version = some 1)
    (hf : doc.function = some f) (h1 : f ≠ "slice") (h2 : f ≠ "curtain") :
    mkschedule doc task_size = .error (.logicError ("No handler for function " ++ f)) := by
  simp [mkschedule, hm, hfv, hf, h1, h2]

/-- Witness for C6 (amended). -/
theorem C6_unknown_function_logic_error_witness :
    mkschedule exUnknownFunctionDoc 1 =
      .error (.logicError ("No handler for function " ++ "horizon")) :=
  C6_unknown_function_logic_error exUnknownFunctionDoc exManifest 1 "horizon" rfl rfl rfl
    (by decide) (by decide)

theorem find_desc_none_no_task {m : Manifest} {attr a : String} {desc : AttrDesc}
    (hnone : find_desc m attr = none) (hfd : find_desc m a = some desc) :
    desc.type ≠ attr := by
  intro hEq
  have hdmem : desc ∈ m.attr := List.mem_of_find?_eq_some hfd
  have h := List.find?_eq_none.1 hnone desc hdmem
  simp [hEq] at h

/-- C10: a requested attribute that the manifest does not declare yields no
fragment-job from either planner, yet the header still lists it among the
attributes, right after the leading `"data"`. -/
theorem C10_unknown_attribute_dropped_but_listed :
    (∀ (q : SliceQuery) (attr : String) (n : Nat),
        attr ∈ q.attributes → find_desc q.manifest attr = none →
        (∀ t ∈ buildSlice q, t.target ≠ some attr) ∧
        (sliceHeader q n).attributes.head? = some "data" ∧
        attr ∈ (sliceHeader q n).attributes) ∧
    (∀ (q : CurtainQuery) (attr : String) (n : Nat),
        attr ∈ q.attributes → find_desc q.manifest attr = none →
        (∀ t ∈ buildCurtain q, t.target ≠ some attr) ∧
        (curtainHeader q n).attributes.head? = some "data" ∧
        attr ∈ (curtainHeader q n).attributes) := by
  constructor
  · intro q attr n hreq hnone
    refine ⟨?_, rfl, List.mem_cons_of_mem _ hreq⟩
    intro t ht
    simp only [buildSlice, List.mem_cons] at ht
    rcases ht with rfl | ht
    · simp [sliceData]
    · rw [List.mem_filterMap] at ht
      obtain ⟨a, -, hmap⟩ := ht
      cases hfd : find_desc q.manifest a with
      | none => rw [hfd] at hmap; cases hmap
      | some desc =>
        rw [hfd] at hmap
        simp only [Option.map_some'] at hmap
        obtain rfl : sliceAttrTask q desc = t := Option.some.inj hmap
        simp only [sliceAttrTask, ne_eq, Option.some.injEq]
        exact find_desc_none_no_task hnone hfd
  · intro q attr n hreq hnone
    refine ⟨?_, rfl, List.mem_cons_of_mem _ hreq⟩
    intro t ht
    simp only [buildCurtain, List.mem_cons] at ht
    rcases ht with rfl | ht
    · simp [curtainData]
    · rw [List.mem_filterMap] at ht
      obtain ⟨a, -, hmap⟩ := ht
      cases hfd : find_desc q.manifest a with
      | none => rw [hfd] at hmap; cases hmap
      | some desc =>
        rw [hfd] at hmap
        simp only [Option.map_some'] at hmap
        obtain rfl : curtainAttrTask q desc = t := Option.some.inj hmap
        simp only [curtainAttrTask, ne_eq, Option.some.injEq]
        exact find_desc_none_no_task hnone hfd

def exUnknownAttrSliceQuery : SliceQuery := ⟨"pid0", exManifest, 0, 3, ["depth"]⟩

def exUnknownAttrCurtainQuery : CurtainQuery := ⟨"pid0", exManifest, [1], [1], ["depth"]⟩

/-- Witness for C10: `exManifest` declares no attributes, so a request for
`"depth"` plans no job for it while the headers still list it. -/
theorem C10_unknown_attribute_dropped_but_listed_witness :
    ((∀ t ∈ buildSlice exUnknownAttrSliceQuery, t.target ≠ some "depth") ∧
      (sliceHeader exUnknownAttrSliceQuery 1).attributes.head? = some "data" ∧
      "depth" ∈ (sliceHeader exUnknownAttrSliceQuery 1).attributes) ∧
    ((∀ t ∈ buildCurtain exUnknownAttrCurtainQuery, t.target ≠ some "depth") ∧
      (curtainHeader exUnknownAttrCurtainQuery 1).attributes.head? = some "data" ∧
      "depth" ∈ (curtainHeader exUnknownAttrCurtainQuery 1).attributes) :=
  ⟨C10_unknown_attribute_dropped_but_listed.1 exUnknownAttrSliceQuery "depth" 1
      (by decide) (by decide),
    C10_unknown_attribute_dropped_but_listed.2 exUnknownAttrCurtainQuery "depth" 1
      (by decide) (by decide)⟩

theorem fidLt_mk_iff (a1 a2 a3 b1 b2 b3 : Nat) :
    fidLt (a1, a2, a3) (b1, b2, b3) = true ↔
      a1 < b1 ∨ (a1 = b1 ∧ (a2 < b2 ∨ (a2 = b2 ∧ a3 < b3))) := by
  simp [fidLt]

theorem keyLt_mk_iff (a1 a2 b1 b2 : Nat) :
    keyLt (a1, a2) (b1, b2) = true ↔ a1 < b1 ∨ (a1 = b1 ∧ a2 < b2) := by
  simp [keyLt]

theorem keyLt_irrefl (a : Key) : ¬keyLt a a = true := by
  obtain ⟨a1, a2⟩ := a
  rw [keyLt_mk_iff]
  omega

theorem keyLt_trans {a b c : Key} (h1 : keyLt a b = true) (h2 : keyLt b c = true) :
    keyLt a c = true := by
  obtain ⟨a1, a2⟩ := a
  obtain ⟨b1, b2⟩ := b
  obtain ⟨c1, c2⟩ := c
  rw [keyLt_mk_iff] at h1 h2 ⊢
  omega

theorem keyLt_flip {a b : Key} (h1 : ¬keyLt a b = true) (h2 : a ≠ b) : keyLt b a = true := by
  obtain ⟨a1, a2⟩ := a
  obtain ⟨b1, b2⟩ := b
  rw [keyLt_mk_iff] at h1 ⊢
  simp only [ne_eq, Prod.mk.injEq, not_and] at h2
  rcases eq_or_ne a1 b1 with rfl | h
  · exact Or.inr ⟨rfl, by rcases Nat.lt_or_ge b2 a2 with h | h; exact h; omega⟩
  · omega

theorem fidLt_irrefl (a : Fid) : ¬fidLt a a = true := by
  obtain ⟨a1, a2, a3⟩ := a
  rw [fidLt_mk_iff]
  omega

theorem fidLt_trans {a b c : Fid} (h1 : fidLt a b = true) (h2 : fidLt b c = true) :
    fidLt a c = true := by
  obtain ⟨a1, a2, a3⟩ := a
  obtain ⟨b1, b2, b3⟩ := b
  obtain ⟨c1, c2, c3⟩ := c
  rw [fidLt_mk_iff] at h1 h2 ⊢
  omega

theorem fidLt_flip {a b : Fid} (h1 : ¬fidLt a b = true) (h2 : a ≠ b) : fidLt b a = true := by
  obtain ⟨a1, a2, a3⟩ := a
  obtain ⟨b1, b2, b3⟩ := b
  rw [fidLt_mk_iff] at h1 ⊢
  simp only [ne_eq, Prod.mk.injEq, not_and] at h2
  rcases eq_or_ne a1 b1 with rfl | h
  · rcases eq_or_ne a2 b2 with rfl | h2' <;> omega
  · omega

theorem fidLt_col (k1 k2 : Key) (w : Nat) :
    fidLt (k1.1, k1.2, w) (k2.1, k2.2, 0) = keyLt k1 k2 := by
  obtain ⟨a1, a2⟩ := k1
  obtain ⟨b1, b2⟩ := k2
  apply Bool.coe_iff_coe.mp
  rw [fidLt_mk_iff, keyLt_mk_iff]
  omega

theorem fidLt_of_keyLt {k1 k2 : Key} (h : keyLt k1 k2 = true) (w1 w2 : Nat) :
    fidLt (k1.1, k1.2, w1) (k2.1, k2.2, w2) = true := by
  obtain ⟨a1, a2⟩ := k1
  obtain ⟨b1, b2⟩ := k2
  rw [keyLt_mk_iff] at h
  rw [fidLt_mk_iff]
  omega

theorem fidLt_same_key (k : Key) {w1 w2 : Nat} (h : w1 < w2) :
    fidLt (k.1, k.2, w1) (k.1, k.2, w2) = true := by
  obtain ⟨a1, a2⟩ := k
  rw [fidLt_mk_iff]
  omega

/-- The fragment-ID skeleton of a sorted bin list: for each x-y key, the
full z-column of `z` fragment IDs, in key order.  This is the shape the
curtain planner's first loop establishes and its second loop preserves. -/
def colFids (z : Nat) (ks : List Key) : List Fid :=
  ks.flatMap fun k => (List.range z).map fun w => (k.1, k.2, w)

theorem colFids_cons (z : Nat) (k : Key) (ks : List Key) :
    colFids z (k :: ks) = ((List.range z).map fun w => (k.1, k.2, w)) ++ colFids z ks := rfl

theorem colFids_append (z : Nat) (ks1 ks2 : List Key) :
    colFids z (ks1 ++ ks2) = colFids z ks1 ++ colFids z ks2 := by
  simp [colFids]

theorem colFids_length (z : Nat) (ks : List Key) :
    (colFids z ks).length = ks.length * z := by
  simp only [colFids, List.length_flatMap, Function.comp_def, List.length_map,
    List.length_range]
  exact sum_map_const ks z

theorem colFids_eq_nil {z : Nat} (hz : 0 < z) {ks : List Key}
    (h : colFids z ks = []) : ks = [] := by
  cases ks with
  | nil => rfl
  | cons k ks =>
    rw [colFids_cons] at h
    rcases List.append_eq_nil.1 h with ⟨h1, -⟩
    rw [List.map_eq_nil_iff, List.range_eq_nil] at h1
    omega

theorem mem_colFids {z : Nat} {ks : List Key} {f : Fid} :
    f ∈ colFids z ks ↔ ∃ k ∈ ks, ∃ w, w < z ∧ f = (k.1, k.2, w) := by
  simp only [colFids, List.mem_flatMap, List.mem_map, List.mem_range]
  constructor
  · rintro ⟨k, hk, w, hw, rfl⟩
    exact ⟨k, hk, w, hw, rfl⟩
  · rintro ⟨k, hk, w, hw, rfl⟩
    exact ⟨k, hk, w, hw, rfl⟩

theorem takeWhile_append_all {α : Type} {p : α → Bool} {l1 l2 : List α}
    (h : ∀ a ∈ l1, p a = true) :
    (l1 ++ l2).takeWhile p = l1 ++ l2.takeWhile p := by
  induction l1 with
  | nil => simp
  | cons a l1 ih =>
    rw [List.cons_append, List.takeWhile_cons_of_pos (h a (List.mem_cons_self ..)),
      ih fun b hb => h b (List.mem_cons_of_mem _ hb), List.cons_append]

theorem dropWhile_append_all {α : Type} {p : α → Bool} {l1 l2 : List α}
    (h : ∀ a ∈ l1, p a = true) :
    (l1 ++ l2).dropWhile p = l2.dropWhile p := by
  induction l1 with
  | nil => simp
  | cons a l1 ih =>
    rw [List.cons_append, List.dropWhile_cons_of_pos (h a (List.mem_cons_self ..)),
      ih fun b hb => h b (List.mem_cons_of_mem _ hb)]

theorem colFids_split (z : Nat) (hz : 0 < z) (k : Key) :
    ∀ ks : List Key,
      (colFids z ks).takeWhile (fun f => fidLt f (k.1, k.2, 0)) =
        colFids z (ks.takeWhile fun x => keyLt x k) ∧
      (colFids z ks).dropWhile (fun f => fidLt f (k.1, k.2, 0)) =
        colFids z (ks.dropWhile fun x => keyLt x k) := by
  intro ks
  induction ks with
  | nil => exact ⟨rfl, rfl⟩
  | cons k2 ks ih =>
    rw [colFids_cons]
    by_cases hk2 : keyLt k2 k = true
    · have hall : ∀ a ∈ (List.range z).map fun w => ((k2.1, k2.2, w) : Fid),
          (fun f => fidLt f (k.1, k.2, 0)) a = true := by
        intro a ha
        obtain ⟨w, -, rfl⟩ := List.mem_map.1 ha
        show fidLt (k2.1, k2.2, w) (k.1, k.2, 0) = true
        rw [fidLt_col k2 k w]
        exact hk2
      constructor
      · rw [takeWhile_append_all hall, ih.1, List.takeWhile_cons]
        simp only [hk2, if_true, reduceIte]
        rw [colFids_cons]
      · rw [dropWhile_append_all hall, ih.2, List.dropWhile_cons]
        simp only [hk2, if_true, reduceIte]
    · have hk2f : keyLt k2 k = false := by
        rcases h : keyLt k2 k with _ | _
        · rfl
        · exact absurd h hk2
      have hfidf : fidLt (k2.1, k2.2, 0) (k.1, k.2, 0) = false := by
        rw [fidLt_col k2 k 0]
        exact hk2f
      obtain ⟨m, rfl⟩ : ∃ m, z = m + 1 := ⟨z - 1, by omega⟩
      have hcol : ((List.range (m + 1)).map fun w => ((k2.1, k2.2, w) : Fid))
          = ((k2.1, k2.2, 0) : Fid) :: ((List.range m).map Nat.succ).map
              (fun w => ((k2.1, k2.2, w) : Fid)) := by
        rw [List.range_succ_eq_map, List.map_cons, List.map_map]
      constructor
      · rw [hcol, List.cons_append]
        simp only [List.takeWhile_cons, hfidf, hk2f, Bool.false_eq_true, reduceIte]
        rfl
      · rw [hcol, List.cons_append]
        simp only [List.dropWhile_cons, hfidf, hk2f, Bool.false_eq_true, reduceIte]
        rw [colFids_cons, hcol, List.cons_append]

/-- The key-level shadow of the curtain planner's column insertion: insert
`k` into the sorted key list at its lower bound, unless already present. -/
def insertKey (ks : List Key) (k : Key) : List Key :=
  let pre := ks.takeWhile fun x => keyLt x k
  let rest := ks.dropWhile fun x => keyLt x k
  match rest with
  | [] => pre ++ [k]
  | k2 :: _ => if k2 = k then ks else pre ++ k :: rest

theorem dropWhile_head_not {α : Type} {p : α → Bool} :
    ∀ {l : List α} {y : α} {tl : List α}, l.dropWhile p = y :: tl → ¬p y = true := by
  intro l
  induction l with
  | nil =>
    intro y tl h
    cases h
  | cons a l ih =>
    intro y tl h
    rw [List.dropWhile_cons] at h
    split at h
    · exact ih h
    · rename_i hpa
      cases h
      exact hpa

theorem pairwise_insert_between {α : Type} (lt : α → α → Bool)
    (htrans : ∀ {a b c : α}, lt a b = true → lt b c = true → lt a c = true)
    (hflip : ∀ {a b : α}, ¬lt a b = true → a ≠ b → lt b a = true)
    {l : List α} {x : α}
    (h : l.Pairwise fun a b => lt a b = true)
    (hhead : ∀ y tl, l.dropWhile (fun a => lt a x) = y :: tl → y ≠ x) :
    (l.takeWhile (fun a => lt a x) ++ x :: l.dropWhile (fun a => lt a x)).Pairwise
      (fun a b => lt a b = true) := by
  have h2 : ((l.takeWhile fun a => lt a x) ++ l.dropWhile fun a => lt a x).Pairwise
      (fun a b => lt a b = true) := by
    rw [List.takeWhile_append_dropWhile]
    exact h
  rcases List.pairwise_append.1 h2 with ⟨hpre, hdrop, hcross⟩
  apply List.pairwise_append.2
  refine ⟨hpre, ?_, ?_⟩
  · apply List.pairwise_cons.2
    refine ⟨?_, hdrop⟩
    intro b hb
    cases hd : l.dropWhile (fun a => lt a x) with
    | nil =>
      rw [hd] at hb
      cases hb
    | cons y tl =>
      rw [hd] at hb
      have hy := dropWhile_head_not (p := fun a => lt a x) hd
      have hxy : lt x y = true := hflip hy (hhead y tl hd)
      rcases List.mem_cons.1 hb with rfl | hbtl
      · exact hxy
      · have hytl := (List.pairwise_cons.1 (hd ▸ hdrop)).1 b hbtl
        exact htrans hxy hytl
  · intro a ha b hb
    have hax := List.mem_takeWhile_imp ha
    rcases List.mem_cons.1 hb with rfl | hbdrop
    · exact hax
    · exact hcross a ha b hbdrop

theorem insertKey_drop_nil {ks : List Key} {k : Key}
    (hd : ks.dropWhile (fun x => keyLt x k) = []) :
    insertKey ks k = (ks.takeWhile fun x => keyLt x k) ++ [k] := by
  unfold insertKey
  rw [hd]

theorem insertKey_drop_found {ks : List Key} {k k2 : Key} {tl : List Key}
    (hd : ks.dropWhile (fun x => keyLt x k) = k2 :: tl) (he : k2 = k) :
    insertKey ks k = ks := by
  unfold insertKey
  rw [hd]
  simp [he]

theorem insertKey_drop_new {ks : List Key} {k k2 : Key} {tl : List Key}
    (hd : ks.dropWhile (fun x => keyLt x k) = k2 :: tl) (hne : k2 ≠ k) :
    insertKey ks k = (ks.takeWhile fun x => keyLt x k) ++ k :: k2 :: tl := by
  unfold insertKey
  rw [hd]
  simp [hne]

theorem insertKey_pairwise {ks : List Key} {k : Key}
    (h : ks.Pairwise fun a b => keyLt a b = true) :
    (insertKey ks k).Pairwise fun a b => keyLt a b = true := by
  cases hd : ks.dropWhile (fun x => keyLt x k) with
  | nil =>
    rw [insertKey_drop_nil hd]
    have hmain := pairwise_insert_between keyLt (fun h1 h2 => keyLt_trans h1 h2)
      (fun h1 h2 => keyLt_flip h1 h2) h
      (fun y tl heq => absurd (heq ▸ hd) (by simp))
    rw [hd] at hmain
    simpa using hmain
  | cons k2 tl =>
    by_cases hk2 : k2 = k
    · rw [insertKey_drop_found hd hk2]
      exact h
    · rw [insertKey_drop_new hd hk2]
      have hmain := pairwise_insert_between keyLt (fun h1 h2 => keyLt_trans h1 h2)
        (fun h1 h2 => keyLt_flip h1 h2) h
        (fun y tl2 heq => by
          rw [hd] at heq
          cases heq
          exact hk2)
      rw [hd] at hmain
      exact hmain

theorem mem_insertKey {ks : List Key} {k x : Key} :
    x ∈ insertKey ks k ↔ x ∈ ks ∨ x = k := by
  have hsplit := List.takeWhile_append_dropWhile (p := fun y => keyLt y k) (l := ks)
  cases hd : ks.dropWhile (fun x => keyLt x k) with
  | nil =>
    rw [insertKey_drop_nil hd]
    rw [hd, List.append_nil] at hsplit
    rw [hsplit]
    simp
  | cons k2 tl =>
    by_cases hk2 : k2 = k
    · rw [insertKey_drop_found hd hk2]
      have hkmem : k ∈ ks := by
        rw [← hsplit, hd, hk2]
        simp
      constructor
      · exact fun hx => Or.inl hx
      · rintro (hx | rfl)
        · exact hx
        · exact hkmem
    · rw [insertKey_drop_new hd hk2]
      conv in x ∈ ks ∨ x = k => rw [← hsplit, hd]
      simp only [List.mem_append, List.mem_cons]
      constructor
      · rintro (hx | rfl | hx) <;> simp_all
      · rintro ((hx | hx) | rfl) <;> simp_all

/-- The x-y fragment key of an input point (the first two components of
`frag_id (x, y, 0)`). -/
def xyFrag (g : Gvt) (q : Nat × Nat) : Key := (q.1 / g.frag.1, q.2 / g.frag.2.1)

theorem frag_id_top (g : Gvt) (q : Nat × Nat) :
    g.frag_id (q.1, q.2, 0) = ((xyFrag g q).1, (xyFrag g q).2, 0) := by
  simp [Gvt.frag_id, xyFrag]

theorem columnAt_map_id (k : Key) (z off : Nat) :
    (columnAt (k.1, k.2, 0) z off).map Single.id
      = (List.range z).map fun w => ((k.1, k.2, w) : Fid) := by
  simp [columnAt, Function.comp_def]

theorem columnAt_coords {fid : Fid} {z off : Nat} :
    ∀ s ∈ columnAt fid z off, s.coordinates = [] := by
  intro s hs
  obtain ⟨w, -, rfl⟩ := List.mem_map.1 hs
  rfl

theorem insertBins_eq_nil {g : Gvt} {z : Nat} {ids : List Single} {i : Nat} {q : Nat × Nat}
    (hd : ids.dropWhile (fun s => fidLt s.id (g.frag_id (q.1, q.2, 0))) = []) :
    insertBins g z ids i q =
      (ids.takeWhile fun s => fidLt s.id (g.frag_id (q.1, q.2, 0)))
        ++ columnAt (g.frag_id (q.1, q.2, 0)) z i := by
  simp only [insertBins]
  rw [hd]

theorem insertBins_eq_found {g : Gvt} {z : Nat} {ids : List Single} {i : Nat} {q : Nat × Nat}
    {s : Single} {tl : List Single}
    (hd : ids.dropWhile (fun x => fidLt x.id (g.frag_id (q.1, q.2, 0))) = s :: tl)
    (he : s.id = g.frag_id (q.1, q.2, 0)) :
    insertBins g z ids i q = ids := by
  simp only [insertBins]
  rw [hd]
  simp [he]

theorem insertBins_eq_new {g : Gvt} {z : Nat} {ids : List Single} {i : Nat} {q : Nat × Nat}
    {s : Single} {tl : List Single}
    (hd : ids.dropWhile (fun x => fidLt x.id (g.frag_id (q.1, q.2, 0))) = s :: tl)
    (hne : s.id ≠ g.frag_id (q.1, q.2, 0)) :
    insertBins g z ids i q =
      (ids.takeWhile fun x => fidLt x.id (g.frag_id (q.1, q.2, 0)))
        ++ columnAt (g.frag_id (q.1, q.2, 0)) z i ++ (s :: tl) := by
  simp only [insertBins]
  rw [hd]
  simp [hne]

theorem insertBins_spec (g : Gvt) {z : Nat} (hz : 0 < z) (i : Nat) (q : Nat × Nat)
    {ks : List Key} {ids : List Single}
    (hids : ids.map Single.id = colFids z ks) :
    (insertBins g z ids i q).map Single.id = colFids z (insertKey ks (xyFrag g q)) ∧
    ((∀ s ∈ ids, s.coordinates = []) → ∀ s ∈ insertBins g z ids i q, s.coordinates = []) := by
  have hfid := frag_id_top g q
  have htake : (ids.takeWhile fun s => fidLt s.id (g.frag_id (q.1, q.2, 0))).map Single.id
      = colFids z (ks.takeWhile fun x => keyLt x (xyFrag g q)) := by
    rw [hfid]
    have h1 := List.takeWhile_map (l := ids) (f := Single.id)
      (p := fun f => fidLt f ((xyFrag g q).1, (xyFrag g q).2, 0))
    rw [hids, (colFids_split z hz (xyFrag g q) ks).1] at h1
    exact h1.symm
  have hdropm : (ids.dropWhile fun s => fidLt s.id (g.frag_id (q.1, q.2, 0))).map Single.id
      = colFids z (ks.dropWhile fun x => keyLt x (xyFrag g q)) := by
    rw [hfid]
    have h1 := List.dropWhile_map (l := ids) (f := Single.id)
      (p := fun f => fidLt f ((xyFrag g q).1, (xyFrag g q).2, 0))
    rw [hids, (colFids_split z hz (xyFrag g q) ks).2] at h1
    exact h1.symm
  cases hrest : ids.dropWhile (fun s => fidLt s.id (g.frag_id (q.1, q.2, 0))) with
  | nil =>
    rw [hrest] at hdropm
    have hkd : ks.dropWhile (fun x => keyLt x (xyFrag g q)) = [] :=
      colFids_eq_nil hz hdropm.symm
    rw [insertBins_eq_nil hrest, insertKey_drop_nil hkd]
    constructor
    · rw [List.map_append, htake, colFids_append, hfid, columnAt_map_id (xyFrag g q) z i]
      congr 1
      simp [colFids]
    · intro hc s hs
      rcases List.mem_append.1 hs with hs | hs
      · exact hc s ((List.takeWhile_sublist _).subset hs)
      · exact columnAt_coords s hs
  | cons s0 tl =>
    rw [hrest] at hdropm
    cases hkd : ks.dropWhile (fun x => keyLt x (xyFrag g q)) with
    | nil =>
      rw [hkd] at hdropm
      simp [colFids] at hdropm
    | cons k2 kd =>
      rw [hkd] at hdropm
      obtain ⟨m, hm⟩ : ∃ m, z = m + 1 := ⟨z - 1, by omega⟩
      subst hm
      have hcol : colFids (m + 1) (k2 :: kd)
          = ((k2.1, k2.2, 0) : Fid) :: (((List.range m).map Nat.succ).map
              (fun w => ((k2.1, k2.2, w) : Fid)) ++ colFids (m + 1) kd) := by
        rw [colFids_cons, List.range_succ_eq_map, List.map_cons, List.map_map, List.cons_append]
      rw [hcol, List.map_cons] at hdropm
      obtain ⟨hs0, htl⟩ := List.cons_eq_cons.1 hdropm
      by_cases he : s0.id = g.frag_id (q.1, q.2, 0)
      · have hk2 : k2 = xyFrag g q := by
          have h1 : ((k2.1, k2.2, 0) : Fid) = ((xyFrag g q).1, (xyFrag g q).2, 0) := by
            rw [← hs0, he, hfid]
          simp only [Prod.mk.injEq] at h1
          exact Prod.ext_iff.2 ⟨h1.1, h1.2.1⟩
        rw [insertBins_eq_found hrest he, insertKey_drop_found hkd hk2]
        exact ⟨hids, fun hc => hc⟩
      · have hk2 : k2 ≠ xyFrag g q := by
          intro hEq
          apply he
          rw [hs0, hfid, hEq]
        rw [insertBins_eq_new hrest he, insertKey_drop_new hkd hk2]
        constructor
        · simp only [List.map_append, List.map_cons]
          rw [htake, hfid, columnAt_map_id (xyFrag g q) (m + 1) i, colFids_append,
            colFids_cons, hs0, htl, hcol]
          simp [List.append_assoc]
        · intro hc s hs
          have hmem : s ∈ (ids.takeWhile fun x => fidLt x.id (g.frag_id (q.1, q.2, 0)))
              ∨ s ∈ columnAt (g.frag_id (q.1, q.2, 0)) (m + 1) i
              ∨ s ∈ (s0 :: tl) := by
            simpa [List.mem_append, or_assoc] using hs
          rcases hmem with hs2 | hs2 | hs2
          · exact hc s ((List.takeWhile_sublist _).subset hs2)
          · exact columnAt_coords s hs2
          · refine hc s (List.Sublist.subset
              (List.dropWhile_sublist fun x => fidLt x.id (g.frag_id (q.1, q.2, 0))) ?_)
            rw [hrest]
            exact hs2

theorem foldl_insertBins_spec (g : Gvt) {z : Nat} (hz : 0 < z) :
    ∀ (l : List (Nat × (Nat × Nat))) (ids : List Single) (ks : List Key),
      (ks.Pairwise fun a b => keyLt a b = true) →
      ids.map Single.id = colFids z ks →
      (∀ s ∈ ids, s.coordinates = []) →
      ∃ ks2 : List Key,
        (ks2.Pairwise fun a b => keyLt a b = true) ∧
        (l.foldl (fun acc ip => insertBins g z acc ip.1 ip.2) ids).map Single.id
          = colFids z ks2 ∧
        (∀ s ∈ l.foldl (fun acc ip => insertBins g z acc ip.1 ip.2) ids,
          s.coordinates = []) ∧
        (∀ x, x ∈ ks2 ↔ x ∈ ks ∨ x ∈ l.map fun ip => xyFrag g ip.2) := by
  intro l
  induction l with
  | nil =>
    intro ids ks h1 h2 h3
    exact ⟨ks, h1, h2, h3, by simp⟩
  | cons ip l ih =>
    intro ids ks h1 h2 h3
    obtain ⟨hmap, hcoords⟩ := insertBins_spec g hz ip.1 ip.2 h2
    obtain ⟨ks2, hp2, hm2, hc2, hiff⟩ := ih (insertBins g z ids ip.1 ip.2)
      (insertKey ks (xyFrag g ip.2)) (insertKey_pairwise h1) hmap (hcoords h3)
    refine ⟨ks2, hp2, ?_, ?_, ?_⟩
    · rw [List.foldl_cons]
      exact hm2
    · rw [List.foldl_cons]
      exact hc2
    · intro x
      rw [hiff x, mem_insertKey]
      simp only [List.map_cons, List.mem_cons]
      tauto

theorem dropWhile_mem_sorted {ks : List Key} {k : Key}
    (hsk : ks.Pairwise fun a b => keyLt a b = true) (hk : k ∈ ks) :
    ∃ kd, ks.dropWhile (fun x => keyLt x k) = k :: kd := by
  have hsplit := List.takeWhile_append_dropWhile (p := fun x => keyLt x k) (l := ks)
  cases hd : ks.dropWhile (fun x => keyLt x k) with
  | nil =>
    exfalso
    rw [← hsplit, hd, List.append_nil] at hk
    exact keyLt_irrefl k (List.mem_takeWhile_imp (p := fun x => keyLt x k) hk)
  | cons y kd =>
    by_cases hyk : y = k
    · exact ⟨kd, by rw [hyk]⟩
    · exfalso
      have hy := dropWhile_head_not (p := fun x => keyLt x k) hd
      rw [← hsplit, hd] at hk
      rcases List.mem_append.1 hk with hk2 | hk2
      · exact keyLt_irrefl k (List.mem_takeWhile_imp (p := fun x => keyLt x k) hk2)
      · rcases List.mem_cons.1 hk2 with rfl | hk3
        · exact hyk rfl
        · have hdp : (y :: kd).Pairwise (fun a b => keyLt a b = true) :=
            hd ▸ List.Pairwise.sublist (List.dropWhile_sublist _) hsk
          exact hy ((List.pairwise_cons.1 hdp).1 k hk3)

theorem addCoords_eq (g : Gvt) (z : Nat) (ids : List Single) (q : Nat × Nat) :
    addCoords g z ids q =
      (ids.takeWhile fun s => fidLt s.id (g.frag_id (q.1, q.2, 0)))
        ++ (((ids.dropWhile fun s => fidLt s.id (g.frag_id (q.1, q.2, 0))).take z).map fun s =>
              { s with coordinates := s.coordinates
                  ++ [((g.to_local (q.1, q.2, 0)).1, (g.to_local (q.1, q.2, 0)).2.1)] })
        ++ (ids.dropWhile fun s => fidLt s.id (g.frag_id (q.1, q.2, 0))).drop z := by
  simp only [addCoords]

theorem map_id_map_upd (c : Nat × Nat) (l : List Single) :
    (l.map fun s => { s with coordinates := s.coordinates ++ [c] }).map Single.id
      = l.map Single.id := by
  rw [List.map_map]
  rfl

theorem csum_map_upd (c : Nat × Nat) (l : List Single) :
    ((l.map fun s => { s with coordinates := s.coordinates ++ [c] }).map
        fun s => s.coordinates.length).sum
      = ((l.map fun s => s.coordinates.length).sum) + l.length := by
  induction l with
  | nil => rfl
  | cons a l ih =>
    simp only [List.map_cons, List.sum_cons, ih, List.length_append, List.length_cons,
      List.length_nil]
    omega

theorem map_takeWhile_fid (g : Gvt) {z : Nat} (hz : 0 < z) (q : Nat × Nat)
    {ks : List Key} {ids : List Single}
    (hids : ids.map Single.id = colFids z ks) :
    (ids.takeWhile fun s => fidLt s.id (g.frag_id (q.1, q.2, 0))).map Single.id
      = colFids z (ks.takeWhile fun x => keyLt x (xyFrag g q)) := by
  rw [frag_id_top g q]
  have h1 := List.takeWhile_map (l := ids) (f := Single.id)
    (p := fun f => fidLt f ((xyFrag g q).1, (xyFrag g q).2, 0))
  rw [hids, (colFids_split z hz (xyFrag g q) ks).1] at h1
  exact h1.symm

theorem map_dropWhile_fid (g : Gvt) {z : Nat} (hz : 0 < z) (q : Nat × Nat)
    {ks : List Key} {ids : List Single}
    (hids : ids.map Single.id = colFids z ks) :
    (ids.dropWhile fun s => fidLt s.id (g.frag_id (q.1, q.2, 0))).map Single.id
      = colFids z (ks.dropWhile fun x => keyLt x (xyFrag g q)) := by
  rw [frag_id_top g q]
  have h1 := List.dropWhile_map (l := ids) (f := Single.id)
    (p := fun f => fidLt f ((xyFrag g q).1, (xyFrag g q).2, 0))
  rw [hids, (colFids_split z hz (xyFrag g q) ks).2] at h1
  exact h1.symm

theorem addCoords_spec (g : Gvt) {z : Nat} (hz : 0 < z) (q : Nat × Nat)
    {ks : List Key} {ids : List Single}
    (hsk : ks.Pairwise fun a b => keyLt a b = true)
    (hids : ids.map Single.id = colFids z ks)
    (hk : xyFrag g q ∈ ks) :
    (addCoords g z ids q).map Single.id = colFids z ks ∧
    ((addCoords g z ids q).map fun s => s.coordinates.length).sum
      = ((ids.map fun s => s.coordinates.length).sum) + z := by
  have htake := map_takeWhile_fid g hz q hids
  have hdropm := map_dropWhile_fid g hz q hids
  obtain ⟨kd, hkd⟩ := dropWhile_mem_sorted hsk hk
  rw [hkd] at hdropm
  have hlen : (ids.dropWhile fun s => fidLt s.id (g.frag_id (q.1, q.2, 0))).length
      = (kd.length + 1) * z := by
    have h2 := congrArg List.length hdropm
    rw [List.length_map, colFids_length, List.length_cons] at h2
    exact h2
  have hzle : z ≤ (ids.dropWhile fun s => fidLt s.id (g.frag_id (q.1, q.2, 0))).length := by
    have hmul : (kd.length + 1) * z = kd.length * z + z := Nat.succ_mul ..
    omega
  have hcolen : ((List.range z).map
      fun w => (((xyFrag g q).1, (xyFrag g q).2, w) : Fid)).length = z := by
    rw [List.length_map, List.length_range]
  have htakez : ((ids.dropWhile fun s => fidLt s.id (g.frag_id (q.1, q.2, 0))).take z).map
      Single.id = (List.range z).map fun w => (((xyFrag g q).1, (xyFrag g q).2, w) : Fid) := by
    rw [List.map_take, hdropm, colFids_cons, List.take_left' hcolen]
  have hdropz : ((ids.dropWhile fun s => fidLt s.id (g.frag_id (q.1, q.2, 0))).drop z).map
      Single.id = colFids z kd := by
    rw [List.map_drop, hdropm, colFids_cons, List.drop_left' hcolen]
  constructor
  · rw [addCoords_eq, List.map_append, List.map_append, map_id_map_upd, htakez, htake, hdropz]
    conv_rhs => rw [← List.takeWhile_append_dropWhile (p := fun x => keyLt x (xyFrag g q))
      (l := ks), hkd]
    rw [colFids_append, colFids_cons]
    simp [List.append_assoc]
  · rw [addCoords_eq, List.map_append, List.map_append, List.sum_append, List.sum_append,
      csum_map_upd]
    have htl : ((ids.dropWhile fun s => fidLt s.id (g.frag_id (q.1, q.2, 0))).take z).length
        = z := by
      rw [List.length_take]
      omega
    have hsplit2 : (ids.map fun s => s.coordinates.length).sum
        = ((ids.takeWhile fun s => fidLt s.id (g.frag_id (q.1, q.2, 0))).map
            fun s => s.coordinates.length).sum
          + (((ids.dropWhile fun s => fidLt s.id (g.frag_id (q.1, q.2, 0))).take z).map
              fun s => s.coordinates.length).sum
          + (((ids.dropWhile fun s => fidLt s.id (g.frag_id (q.1, q.2, 0))).drop z).map
              fun s => s.coordinates.length).sum := by
      conv_lhs => rw [← List.takeWhile_append_dropWhile
        (p := fun s => fidLt s.id (g.frag_id (q.1, q.2, 0))) (l := ids),
        ← List.take_append_drop z (ids.dropWhile fun s => fidLt s.id (g.frag_id (q.1, q.2, 0)))]
      rw [List.map_append, List.map_append, List.sum_append, List.sum_append]
      omega
    omega

theorem foldl_addCoords_spec (g : Gvt) {z : Nat} (hz : 0 < z) {ks : List Key}
    (hsk : ks.Pairwise fun a b => keyLt a b = true) :
    ∀ (l : List (Nat × Nat)) (ids : List Single),
      ids.map Single.id = colFids z ks →
      (∀ p ∈ l, xyFrag g p ∈ ks) →
      (l.foldl (fun acc p => addCoords g z acc p) ids).map Single.id = colFids z ks ∧
      ((l.foldl (fun acc p => addCoords g z acc p) ids).map
          fun s => s.coordinates.length).sum
        = ((ids.map fun s => s.coordinates.length).sum) + l.length * z := by
  intro l
  induction l with
  | nil =>
    intro ids h1 h2
    exact ⟨h1, by simp⟩
  | cons p l ih =>
    intro ids h1 h2
    obtain ⟨hm, hs⟩ := addCoords_spec g hz p hsk h1 (h2 p (List.mem_cons_self ..))
    obtain ⟨hm2, hs2⟩ := ih (addCoords g z ids p) hm
      fun x hx => h2 x (List.mem_cons_of_mem _ hx)
    refine ⟨by rw [List.foldl_cons]; exact hm2, ?_⟩
    rw [List.foldl_cons, hs2, hs, List.length_cons]
    have hmul : (l.length + 1) * z = l.length * z + z := Nat.succ_mul ..
    omega

theorem foldl_insertBins_zero (g : Gvt) :
    ∀ l : List (Nat × (Nat × Nat)),
      l.foldl (fun acc ip => insertBins g 0 acc ip.1 ip.2) [] = [] := by
  intro l
  induction l with
  | nil => rfl
  | cons ip l ih =>
    rw [List.foldl_cons, show insertBins g 0 [] ip.1 ip.2 = [] from rfl]
    exact ih

theorem foldl_addCoords_zero (g : Gvt) :
    ∀ l : List (Nat × Nat),
      l.foldl (fun acc p => addCoords g 0 acc p) [] = [] := by
  intro l
  induction l with
  | nil => rfl
  | cons p l ih =>
    rw [List.foldl_cons, show addCoords g 0 [] p = [] from rfl]
    exact ih

theorem curtainData_ids_eq (q : CurtainQuery) :
    (curtainData q).ids =
      (q.dim0s.zip q.dim1s).foldl
        (fun ids p => addCoords (queryGvt q.manifest)
          ((queryGvt q.manifest).fragment_count 2) ids p)
        ((q.dim0s.zip q.dim1s).enum.foldl
          (fun ids ip => insertBins (queryGvt q.manifest)
            ((queryGvt q.manifest).fragment_count 2) ids ip.1 ip.2) []) := rfl

theorem enum_map_xyFrag (g : Gvt) (ps : List (Nat × Nat)) :
    ps.enum.map (fun ip => xyFrag g ip.2) = ps.map (xyFrag g) := by
  rw [show (fun ip : Nat × (Nat × Nat) => xyFrag g ip.2) = (xyFrag g) ∘ Prod.snd from rfl,
    ← List.map_map, List.enum_map_snd]

theorem sum_coords_zero {l : List Single} (h : ∀ s ∈ l, s.coordinates = []) :
    (l.map fun s => s.coordinates.length).sum = 0 := by
  apply List.sum_eq_zero
  intro x hx
  obtain ⟨s, hs, rfl⟩ := List.mem_map.1 hx
  rw [h s hs]
  rfl

/-- C2: for a curtain query with as many `dim0s` as `dim1s` entries, the
data job holds exactly `distinct_xy_fragments * zfrags` singles, where the
distinct count is over the input points' `(x / F0, y / F1)` fragment keys,
and the total number of coordinate pairs over all singles is
`N * zfrags` — duplicates included, nothing deduplicated at the
coordinate level. -/
theorem C2_curtain_data_counts (q : CurtainQuery)
    (hlen : q.dim0s.length = q.dim1s.length) :
    (buildCurtain q).head? = some (curtainData q) ∧
    (curtainData q).ids.length =
      (((q.dim0s.zip q.dim1s).map fun p =>
          (p.1 / q.manifest.frag.1, p.2 / q.manifest.frag.2.1)).toFinset.card)
        * (queryGvt q.manifest).fragment_count 2 ∧
    ((curtainData q).ids.map fun s => s.coordinates.length).sum =
      q.dim0s.length * (queryGvt q.manifest).fragment_count 2 := by
  have hxy : (fun p : Nat × Nat => (p.1 / q.manifest.frag.1, p.2 / q.manifest.frag.2.1))
      = xyFrag (queryGvt q.manifest) := rfl
  rw [hxy]
  have hps : (q.dim0s.zip q.dim1s).length = q.dim0s.length := by
    rw [List.length_zip]
    omega
  rcases Nat.eq_zero_or_pos ((queryGvt q.manifest).fragment_count 2) with hz | hz
  · have hnil : (curtainData q).ids = [] := by
      rw [curtainData_ids_eq, hz, foldl_insertBins_zero, foldl_addCoords_zero]
    refine ⟨rfl, ?_, ?_⟩ <;> rw [hnil, hz] <;> simp
  · obtain ⟨ks, hpk, hmap, hcoords, hiff⟩ :=
      foldl_insertBins_spec (queryGvt q.manifest) hz (q.dim0s.zip q.dim1s).enum [] []
        List.Pairwise.nil rfl (by simp)
    have hmem : ∀ p ∈ q.dim0s.zip q.dim1s, xyFrag (queryGvt q.manifest) p ∈ ks := by
      intro p hp
      rw [hiff]
      right
      rw [enum_map_xyFrag]
      exact List.mem_map_of_mem _ hp
    obtain ⟨hm2, hs2⟩ := foldl_addCoords_spec (queryGvt q.manifest) hz hpk
      (q.dim0s.zip q.dim1s) _ hmap hmem
    rw [← curtainData_ids_eq] at hm2 hs2
    have hnodup : ks.Nodup := by
      apply List.Pairwise.imp ?_ hpk
      intro a b hab heq
      exact keyLt_irrefl b (heq ▸ hab)
    have hfs : ks.toFinset = ((q.dim0s.zip q.dim1s).map (xyFrag (queryGvt q.manifest))).toFinset := by
      apply Finset.ext
      intro x
      simp only [List.mem_toFinset]
      rw [hiff x, enum_map_xyFrag]
      simp
    refine ⟨rfl, ?_, ?_⟩
    · have hL : (curtainData q).ids.length = (colFids ((queryGvt q.manifest).fragment_count 2) ks).length := by
        rw [← hm2, List.length_map]
      rw [hL, colFids_length, ← List.toFinset_card_of_nodup hnodup, hfs]
    · rw [hs2, sum_coords_zero hcoords, hps]
      omega

def exCurtainManifest : Manifest where
  format_version := some 1
  line_labels := ["Inline", "Crossline", "Depth"]
  ln0 := [0, 1, 2, 3, 4, 5, 6, 7]
  ln1 := [0, 1, 2, 3, 4, 5, 6, 7]
  ln2 := [0, 1, 2, 3]
  frag := (4, 4, 2)
  attr := []

def exCurtainQuery : CurtainQuery := ⟨"pid0", exCurtainManifest, [1, 5], [1, 1], []⟩

/-- Witness for C2 at the spec's scenario S4: two points in two distinct
x-y fragments of a cube with two depth fragments give four singles and
four coordinate entries. -/
theorem C2_curtain_data_counts_witness :
    (buildCurtain exCurtainQuery).head? = some (curtainData exCurtainQuery) ∧
    (curtainData exCurtainQuery).ids.length =
      (((exCurtainQuery.dim0s.zip exCurtainQuery.dim1s).map fun p =>
          (p.1 / exCurtainQuery.manifest.frag.1,
           p.2 / exCurtainQuery.manifest.frag.2.1)).toFinset.card)
        * (queryGvt exCurtainQuery.manifest).fragment_count 2 ∧
    ((curtainData exCurtainQuery).ids.map fun s => s.coordinates.length).sum =
      exCurtainQuery.dim0s.length * (queryGvt exCurtainQuery.manifest).fragment_count 2 :=
  C2_curtain_data_counts exCurtainQuery (by decide)

theorem pairwise_grid (a b : Nat) (f : Nat → Nat → Fid)
    (h1 : ∀ i1 j1 i2 j2, i1 < i2 → fidLt (f i1 j1) (f i2 j2) = true)
    (h2 : ∀ i j1 j2, j1 < j2 → fidLt (f i j1) (f i j2) = true) :
    ((List.range a).flatMap fun i => (List.range b).map fun j => f i j).Pairwise
      (fun x y => fidLt x y = true) := by
  apply List.pairwise_flatMap.2
  constructor
  · intro i hi
    apply List.pairwise_map.2
    exact (List.pairwise_lt_range b).imp fun hj => h2 i _ _ hj
  · apply ((List.pairwise_lt_range a).imp ?_)
    intro i1 i2 hi x hx y hy
    obtain ⟨j1, -, rfl⟩ := List.mem_map.1 hx
    obtain ⟨j2, -, rfl⟩ := List.mem_map.1 hy
    exact h1 i1 j1 i2 j2 hi

theorem slice_other (g : Gvt) (d idx : Nat) (h0 : d ≠ 0) (h1 : d ≠ 1) :
    g.slice d idx =
      (List.range (g.fragment_count 0)).flatMap
        (fun i => (List.range (g.fragment_count 1)).map fun j => (i, j, idx / g.fragAt d)) := by
  simp only [Gvt.slice, if_neg h0, if_neg h1]

theorem slice_pairwise (g : Gvt) (d idx : Nat) :
    (g.slice d idx).Pairwise fun a b => fidLt a b = true := by
  by_cases h0 : d = 0
  · subst h0
    rw [slice_zero]
    apply pairwise_grid
    · intro i1 j1 i2 j2 hi
      rw [fidLt_mk_iff]
      omega
    · intro i j1 j2 hj
      rw [fidLt_mk_iff]
      omega
  · by_cases h1 : d = 1
    · subst h1
      rw [slice_one]
      apply pairwise_grid
      · intro i1 j1 i2 j2 hi
        rw [fidLt_mk_iff]
        omega
      · intro i j1 j2 hj
        rw [fidLt_mk_iff]
        omega
    · rw [slice_other g d idx h0 h1]
      apply pairwise_grid
      · intro i1 j1 i2 j2 hi
        rw [fidLt_mk_iff]
        omega
      · intro i j1 j2 hj
        rw [fidLt_mk_iff]
        omega

theorem buildSlice_ids_pairwise (q : SliceQuery) :
    ∀ t ∈ buildSlice q, t.ids.Pairwise fun a b => fidLt a b = true := by
  intro t ht
  simp only [buildSlice, List.mem_cons] at ht
  rcases ht with rfl | ht
  · exact slice_pairwise ..
  · rw [List.mem_filterMap] at ht
    obtain ⟨a, -, hmap⟩ := ht
    cases hfd : find_desc q.manifest a with
    | none =>
      rw [hfd] at hmap
      cases hmap
    | some desc =>
      rw [hfd] at hmap
      simp only [Option.map_some'] at hmap
      obtain rfl : sliceAttrTask q desc = t := Option.some.inj hmap
      exact slice_pairwise ..

theorem colFids_pairwise {z : Nat} {ks : List Key}
    (hks : ks.Pairwise fun a b => keyLt a b = true) :
    (colFids z ks).Pairwise fun a b => fidLt a b = true := by
  apply List.pairwise_flatMap.2
  constructor
  · intro k hk
    apply List.pairwise_map.2
    exact (List.pairwise_lt_range z).imp fun hw => fidLt_same_key k hw
  · apply hks.imp ?_
    intro k1 k2 hlt x hx y hy
    obtain ⟨w1, -, rfl⟩ := List.mem_map.1 hx
    obtain ⟨w2, -, rfl⟩ := List.mem_map.1 hy
    exact fidLt_of_keyLt hlt w1 w2

theorem attrStep_eq_nil {g : Gvt} {ids : List Single} {i : Nat} {q : Nat × Nat}
    (hd : ids.dropWhile (fun s => fidLt s.id (g.frag_id (q.1, q.2, 0))) = []) :
    attrStep g ids i q =
      (ids.takeWhile fun s => fidLt s.id (g.frag_id (q.1, q.2, 0)))
        ++ [{ id := g.frag_id (q.1, q.2, 0),
              coordinates := [((g.to_local (q.1, q.2, 0)).1, (g.to_local (q.1, q.2, 0)).2.1)],
              offset := i }] := by
  simp only [attrStep]
  rw [hd]

theorem attrStep_eq_found {g : Gvt} {ids : List Single} {i : Nat} {q : Nat × Nat}
    {s : Single} {tl : List Single}
    (hd : ids.dropWhile (fun x => fidLt x.id (g.frag_id (q.1, q.2, 0))) = s :: tl)
    (he : s.id = g.frag_id (q.1, q.2, 0)) :
    attrStep g ids i q =
      (ids.takeWhile fun x => fidLt x.id (g.frag_id (q.1, q.2, 0)))
        ++ ({ s with coordinates := s.coordinates
               ++ [((g.to_local (q.1, q.2, 0)).1, (g.to_local (q.1, q.2, 0)).2.1)] } :: tl) := by
  simp only [attrStep]
  rw [hd]
  simp [he]

theorem attrStep_eq_new {g : Gvt} {ids : List Single} {i : Nat} {q : Nat × Nat}
    {s : Single} {tl : List Single}
    (hd : ids.dropWhile (fun x => fidLt x.id (g.frag_id (q.1, q.2, 0))) = s :: tl)
    (hne : s.id ≠ g.frag_id (q.1, q.2, 0)) :
    attrStep g ids i q =
      (ids.takeWhile fun x => fidLt x.id (g.frag_id (q.1, q.2, 0)))
        ++ ({ id := g.frag_id (q.1, q.2, 0),
              coordinates := [((g.to_local (q.1, q.2, 0)).1, (g.to_local (q.1, q.2, 0)).2.1)],
              offset := i } :: s :: tl) := by
  simp only [attrStep]
  rw [hd]
  simp [hne]

theorem attrStep_pairwise (g : Gvt) (ids : List Single) (i : Nat) (q : Nat × Nat)
    (h : (ids.map Single.id).Pairwise fun a b => fidLt a b = true) :
    ((attrStep g ids i q).map Single.id).Pairwise fun a b => fidLt a b = true := by
  have htakem : (ids.takeWhile fun s => fidLt s.id (g.frag_id (q.1, q.2, 0))).map Single.id
      = (ids.map Single.id).takeWhile fun f => fidLt f (g.frag_id (q.1, q.2, 0)) :=
    (List.takeWhile_map (l := ids) (f := Single.id)
      (p := fun f => fidLt f (g.frag_id (q.1, q.2, 0)))).symm
  have hdropm : (ids.dropWhile fun s => fidLt s.id (g.frag_id (q.1, q.2, 0))).map Single.id
      = (ids.map Single.id).dropWhile fun f => fidLt f (g.frag_id (q.1, q.2, 0)) :=
    (List.dropWhile_map (l := ids) (f := Single.id)
      (p := fun f => fidLt f (g.frag_id (q.1, q.2, 0)))).symm
  cases hrest : ids.dropWhile (fun s => fidLt s.id (g.frag_id (q.1, q.2, 0))) with
  | nil =>
    rw [attrStep_eq_nil hrest, List.map_append]
    have hdnil : (ids.map Single.id).dropWhile
        (fun f => fidLt f (g.frag_id (q.1, q.2, 0))) = [] := by
      rw [← hdropm, hrest]
      rfl
    have hmain := pairwise_insert_between fidLt (fun h1 h2 => fidLt_trans h1 h2)
      (fun h1 h2 => fidLt_flip h1 h2) h
      (fun y tl heq => absurd (heq ▸ hdnil) (by simp))
    rw [hdnil] at hmain
    rw [htakem]
    simpa using hmain
  | cons s0 tl =>
    by_cases he : s0.id = g.frag_id (q.1, q.2, 0)
    · rw [attrStep_eq_found hrest he, List.map_append, List.map_cons]
      have hgoal_eq : ids.map Single.id
          = (ids.takeWhile fun x => fidLt x.id (g.frag_id (q.1, q.2, 0))).map Single.id
            ++ (s0.id :: tl.map Single.id) := by
        conv_lhs => rw [← List.takeWhile_append_dropWhile
          (p := fun x => fidLt x.id (g.frag_id (q.1, q.2, 0))) (l := ids), hrest]
        rw [List.map_append, List.map_cons]
      rw [show ({ s0 with coordinates := s0.coordinates
          ++ [((g.to_local (q.1, q.2, 0)).1, (g.to_local (q.1, q.2, 0)).2.1)] } : Single).id
          = s0.id from rfl]
      rw [← hgoal_eq]
      exact h
    · rw [attrStep_eq_new hrest he, List.map_append, List.map_cons, List.map_cons]
      have hdcons : (ids.map Single.id).dropWhile
          (fun f => fidLt f (g.frag_id (q.1, q.2, 0))) = s0.id :: tl.map Single.id := by
        rw [← hdropm, hrest, List.map_cons]
      have hmain := pairwise_insert_between fidLt (fun h1 h2 => fidLt_trans h1 h2)
        (fun h1 h2 => fidLt_flip h1 h2) h
        (fun y tl2 heq => by
          rw [hdcons] at heq
          have h1 : s0.id = y := (List.cons_eq_cons.1 heq).1
          intro hyx
          exact he (h1.trans hyx))
      rw [hdcons] at hmain
      rw [htakem]
      exact hmain

theorem foldl_attrStep_pairwise (g : Gvt) :
    ∀ (l : List (Nat × (Nat × Nat))) (ids : List Single),
      ((ids.map Single.id).Pairwise fun a b => fidLt a b = true) →
      (((l.foldl (fun acc ip => attrStep g acc ip.1 ip.2) ids).map Single.id).Pairwise
        fun a b => fidLt a b = true) := by
  intro l
  induction l with
  | nil => exact fun ids h => h
  | cons ip l ih =>
    intro ids h
    rw [List.foldl_cons]
    exact ih _ (attrStep_pairwise g ids ip.1 ip.2 h)

theorem buildCurtain_ids_pairwise (q : CurtainQuery) :
    ∀ t ∈ buildCurtain q, (t.ids.map Single.id).Pairwise fun a b => fidLt a b = true := by
  intro t ht
  simp only [buildCurtain, List.mem_cons] at ht
  rcases ht with rfl | ht
  · rcases Nat.eq_zero_or_pos ((queryGvt q.manifest).fragment_count 2) with hz | hz
    · rw [curtainData_ids_eq, hz, foldl_insertBins_zero, foldl_addCoords_zero]
      exact List.Pairwise.nil
    · obtain ⟨ks, hpk, hmap, -, hiff⟩ :=
        foldl_insertBins_spec (queryGvt q.manifest) hz (q.dim0s.zip q.dim1s).enum [] []
          List.Pairwise.nil rfl (by simp)
      have hmem : ∀ p ∈ q.dim0s.zip q.dim1s, xyFrag (queryGvt q.manifest) p ∈ ks := by
        intro p hp
        rw [hiff]
        right
        rw [enum_map_xyFrag]
        exact List.mem_map_of_mem _ hp
      obtain ⟨hm2, -⟩ := foldl_addCoords_spec (queryGvt q.manifest) hz hpk
        (q.dim0s.zip q.dim1s) _ hmap hmem
      rw [← curtainData_ids_eq] at hm2
      rw [hm2]
      exact colFids_pairwise hpk
  · rw [List.mem_filterMap] at ht
    obtain ⟨a, -, hmap⟩ := ht
    cases hfd : find_desc q.manifest a with
    | none =>
      rw [hfd] at hmap
      cases hmap
    | some desc =>
      rw [hfd] at hmap
      simp only [Option.map_some'] at hmap
      obtain rfl : curtainAttrTask q desc = t := Option.some.inj hmap
      exact foldl_attrStep_pairwise (attrGvt desc) (q.dim0s.zip q.dim1s).enum []
        List.Pairwise.nil

/-- C7: in every plan from either planner, each job's fragment-IDs (the
`ids` of a slice job; the `id` fields of a curtain job's singles) are
strictly sorted lexicographically, hence pairwise distinct. -/
theorem C7_fragment_ids_strictly_sorted :
    (∀ (q : SliceQuery), ∀ t ∈ buildSlice q,
        t.ids.Pairwise (fun a b => fidLt a b = true) ∧ t.ids.Nodup) ∧
    (∀ (q : CurtainQuery), ∀ t ∈ buildCurtain q,
        (t.ids.map Single.id).Pairwise (fun a b => fidLt a b = true) ∧
          (t.ids.map Single.id).Nodup) := by
  constructor
  · intro q t ht
    have h := buildSlice_ids_pairwise q t ht
    refine ⟨h, List.Pairwise.imp ?_ h⟩
    intro a b hab heq
    exact fidLt_irrefl b (heq ▸ hab)
  · intro q t ht
    have h := buildCurtain_ids_pairwise q t ht
    refine ⟨h, List.Pairwise.imp ?_ h⟩
    intro a b hab heq
    exact fidLt_irrefl b (heq ▸ hab)

/-- Witness for C7: the data jobs of the concrete slice and curtain
examples are strictly sorted and duplicate-free. -/
theorem C7_fragment_ids_strictly_sorted_witness :
    ((sliceData exSliceQuery).ids.Pairwise (fun a b => fidLt a b = true) ∧
      (sliceData exSliceQuery).ids.Nodup) ∧
    (((curtainData exCurtainQuery).ids.map Single.id).Pairwise
        (fun a b => fidLt a b = true) ∧
      ((curtainData exCurtainQuery).ids.map Single.id).Nodup) :=
  ⟨C7_fragment_ids_strictly_sorted.1 exSliceQuery (sliceData exSliceQuery)
      (List.mem_cons_self ..),
    C7_fragment_ids_strictly_sorted.2 exCurtainQuery (curtainData exCurtainQuery)
      (List.mem_cons_self ..)⟩
